import Mathlib

/-!
Verification development for the Cuneos single-node proof-of-work ledger
(`src/main.rs`).  The Rust source is shallowly embedded: pure functions become
Lean functions, the unbounded mining loop becomes a fuel-indexed recursion
returning `Option`, `f64` values are modelled as exact rationals, machine
integers are `Nat` with explicit reduction modulo `2^64` where wrap-around
matters, and all sources of nondeterminism (random miner selection, wall-clock
timestamps, measured mining durations, AEAD nonces) are passed as explicit
parameters.
-/

/-- Number of values of a `u64`, used to model wrap-around of the nonce. -/
def U64SIZE : Nat := 18446744073709551616

/-- Modulus for the 256-bit digest of the modelled hash function. -/
def HMOD : Nat := 2 ^ 256

/-- Hex digit character for a value below 16 (lower case, as `hex::encode`). -/
def hexDigit (n : Nat) : Char :=
  if n < 10 then Char.ofNat (48 + n) else Char.ofNat (87 + n)

/-- Hex encoding of a 256-bit digest as 64 lower-case hex characters,
big-endian, mirroring `hex::encode` of a 32-byte SHA3-256 digest. -/
def hexEncode256 (n : Nat) : String :=
  String.mk (((List.range 64).map (fun i => hexDigit (n / 16 ^ (63 - i) % 16))))

/-- Big-endian byte list of a 64-bit integer, mirroring `u64::to_be_bytes`. -/
def be8 (n : Nat) : List Nat :=
  (List.range 8).map (fun i => n / 256 ^ (7 - i) % 256)

/-- Bytes of a string (code points stand in for the UTF-8 bytes of
`str::as_bytes`; the model only needs a deterministic injective byte view). -/
def strBytes (s : String) : List Nat :=
  s.data.map Char.toNat

/-- Boolean prefix test on character lists. -/
def isPrefixL : List Char → List Char → Bool
  | [], _ => true
  | _ :: _, [] => false
  | c :: cs, d :: ds => c == d && isPrefixL cs ds

/-- `String.starts_with` of the Rust standard library. -/
def strStartsWith (s pre : String) : Bool :=
  isPrefixL pre.data s.data

/-- The proof-of-work target string `"0".repeat(difficulty)`. -/
def zeroTarget (difficulty : Nat) : String :=
  String.mk (List.replicate difficulty (Char.ofNat 48))

/-- Boolean contiguous-substring test on character lists. -/
def substrAux (needle : List Char) : List Char → Bool
  | [] => isPrefixL needle []
  | c :: cs => isPrefixL needle (c :: cs) || substrAux needle cs

/-- `str::contains` substring test of the Rust standard library. -/
def strContains (hay needle : String) : Bool :=
  substrAux needle.data hay.data

def HMULT : Nat := 88064393955300089256201409537261967614498111963895908319884077998458081052883

def HSEED : Nat := 71563446777022297856526126342750658392501306254664949883333486863006233104021

/-- Modelled from the spec and `rand` crate usage: the hash digest of the
`sha3` crate is external to the repository; it is modelled as a deterministic
executable 256-bit digest of the input byte stream (a rolling fold), which is
all the claims rely on: the stored hash is a function of exactly the hashed
bytes, in order. -/
def hashBytesNat (bs : List Nat) : Nat :=
  (bs.foldl (fun h b => (h * HMULT + b + 1) % HMOD) HSEED * HMULT + 1) % HMOD

/-- Executable rational multiplication (`Rat.mul` of the library is opaque to
kernel evaluation; this wrapper is proved equal to it below). -/
def fmul (a b : Rat) : Rat :=
  mkRat (a.num * b.num) (a.den * b.den)

/-- Executable rational addition. -/
def fadd (a b : Rat) : Rat :=
  mkRat (a.num * b.den + b.num * a.den) (a.den * b.den)

/-- Executable rational inverse (`inv 0 = 0`). -/
def finv (b : Rat) : Rat :=
  if b.num < 0 then mkRat (-(b.den : Int)) b.num.natAbs
  else if 0 < b.num then mkRat (b.den : Int) b.num.natAbs
  else b

/-- Executable rational division (`div a 0 = 0`, as for `f64`-free `Rat`). -/
def fdiv (a b : Rat) : Rat :=
  fmul a (finv b)

/-- Executable rational list sum. -/
def fsum (l : List Rat) : Rat :=
  l.foldl fadd 0

/-- `TransactionType` from `src/main.rs`. -/
inductive TransactionType where
  | PeaceTransfer
  | ProfileDeletion
  | ProfileUpdate
  | Match
  | KeyRevocation
  | Message
  | Like
  | PhotoShare
  | BlockUser
  | VideoCall
  | ReportUser
  | KeyShare
  deriving DecidableEq, Repr

/-- `Transaction` from `src/main.rs`; `f64` amounts are modelled as rationals,
byte vectors as `List Nat`. -/
structure Transaction where
  transaction_type : TransactionType
  sender_id : String
  receiver_id : String
  amount : Option Rat
  duration : Option Nat
  reason : Option String
  user_id : Option String
  updated_profile : Option (List Nat)
  match_pair : Option (String × String)
  revoked_key_pair : Option (String × String)
  encrypted_key : Option (List Nat)
  encrypted_content : Option (List Nat)
  timestamp : String
  global_tx_id : String
  deriving DecidableEq, Repr

/-- `Transaction::new_peace_transfer`. -/
def Transaction.new_peace_transfer (sender_id receiver_id : String) (amount : Rat)
    (timestamp global_tx_id : String) : Transaction :=
  { transaction_type := TransactionType.PeaceTransfer
    sender_id := sender_id
    receiver_id := receiver_id
    amount := some amount
    duration := none, reason := none, user_id := none, updated_profile := none
    match_pair := none, revoked_key_pair := none, encrypted_key := none
    encrypted_content := none
    timestamp := timestamp
    global_tx_id := global_tx_id }

/-- `Transaction::new_profile_deletion`. -/
def Transaction.new_profile_deletion (user_id timestamp global_tx_id : String) :
    Transaction :=
  { transaction_type := TransactionType.ProfileDeletion
    sender_id := user_id
    receiver_id := "system"
    amount := none, duration := none, reason := none
    user_id := some user_id
    updated_profile := none, match_pair := none, revoked_key_pair := none
    encrypted_key := none, encrypted_content := none
    timestamp := timestamp
    global_tx_id := global_tx_id }

/-- `Transaction::new_profile_update`. -/
def Transaction.new_profile_update (user_id : String) (updated_profile : List Nat)
    (timestamp global_tx_id : String) : Transaction :=
  { transaction_type := TransactionType.ProfileUpdate
    sender_id := user_id
    receiver_id := "system"
    amount := none, duration := none, reason := none
    user_id := some user_id
    updated_profile := some updated_profile
    match_pair := none, revoked_key_pair := none
    encrypted_key := none, encrypted_content := none
    timestamp := timestamp
    global_tx_id := global_tx_id }

/-- `Transaction::new_match`. -/
def Transaction.new_match (user_id1 user_id2 timestamp global_tx_id : String) :
    Transaction :=
  { transaction_type := TransactionType.Match
    sender_id := user_id1
    receiver_id := user_id2
    amount := none, duration := none, reason := none, user_id := none
    updated_profile := none
    match_pair := some (user_id1, user_id2)
    revoked_key_pair := none, encrypted_key := none, encrypted_content := none
    timestamp := timestamp
    global_tx_id := global_tx_id }

/-- `Transaction::new_key_revocation`. -/
def Transaction.new_key_revocation (revoker_id target_id timestamp global_tx_id : String) :
    Transaction :=
  { transaction_type := TransactionType.KeyRevocation
    sender_id := revoker_id
    receiver_id := target_id
    amount := none, duration := none, reason := none, user_id := none
    updated_profile := none, match_pair := none
    revoked_key_pair := some (revoker_id, target_id)
    encrypted_key := none, encrypted_content := none
    timestamp := timestamp
    global_tx_id := global_tx_id }

/-- `Transaction::new_block_user`. -/
def Transaction.new_block_user (sender_id receiver_id timestamp global_tx_id : String) :
    Transaction :=
  { transaction_type := TransactionType.BlockUser
    sender_id := sender_id
    receiver_id := receiver_id
    amount := none, duration := none, reason := none, user_id := none
    updated_profile := none, match_pair := none, revoked_key_pair := none
    encrypted_key := none, encrypted_content := none
    timestamp := timestamp
    global_tx_id := global_tx_id }

/-- `Transaction::new_video_call`. -/
def Transaction.new_video_call (sender_id receiver_id : String) (duration : Nat)
    (timestamp global_tx_id : String) : Transaction :=
  { transaction_type := TransactionType.VideoCall
    sender_id := sender_id
    receiver_id := receiver_id
    amount := none
    duration := some duration
    reason := none, user_id := none, updated_profile := none, match_pair := none
    revoked_key_pair := none, encrypted_key := none, encrypted_content := none
    timestamp := timestamp
    global_tx_id := global_tx_id }

/-- `Transaction::new_report_user`. -/
def Transaction.new_report_user (sender_id receiver_id reason timestamp global_tx_id : String) :
    Transaction :=
  { transaction_type := TransactionType.ReportUser
    sender_id := sender_id
    receiver_id := receiver_id
    amount := none, duration := none
    reason := some reason
    user_id := none, updated_profile := none, match_pair := none
    revoked_key_pair := none, encrypted_key := none, encrypted_content := none
    timestamp := timestamp
    global_tx_id := global_tx_id }

/-- `Transaction::new_key_share`. -/
def Transaction.new_key_share (sender_id receiver_id : String) (encrypted_key : List Nat)
    (timestamp global_tx_id : String) : Transaction :=
  { transaction_type := TransactionType.KeyShare
    sender_id := sender_id
    receiver_id := receiver_id
    amount := none, duration := none, reason := none, user_id := none
    updated_profile := none, match_pair := none, revoked_key_pair := none
    encrypted_key := some encrypted_key
    encrypted_content := none
    timestamp := timestamp
    global_tx_id := global_tx_id }

/-- Byte encoding of a string with a length marker (models the JSON string
serialization of `serde_json`). -/
def encStr (s : String) : List Nat :=
  s.length :: strBytes s

/-- Byte encoding of an integer (sign marker plus magnitude). -/
def encInt (i : Int) : List Nat :=
  if i < 0 then [0, i.natAbs] else [1, i.natAbs]

/-- Byte encoding of a rational (models the JSON number serialization of an
`f64` amount). -/
def encRat (q : Rat) : List Nat :=
  encInt q.num ++ [q.den]

/-- Byte encoding of an optional payload field. -/
def encOpt (f : α → List Nat) : Option α → List Nat
  | none => [0]
  | some a => 1 :: f a

/-- Byte encoding of a raw byte vector with a length marker. -/
def encBytes (l : List Nat) : List Nat :=
  l.length :: l

/-- Byte encoding of a pair of identities. -/
def encPairStr (p : String × String) : List Nat :=
  encStr p.1 ++ encStr p.2

/-- Tag byte of a `TransactionType`. -/
def encTxType : TransactionType → Nat
  | TransactionType.PeaceTransfer => 0
  | TransactionType.ProfileDeletion => 1
  | TransactionType.ProfileUpdate => 2
  | TransactionType.Match => 3
  | TransactionType.KeyRevocation => 4
  | TransactionType.Message => 5
  | TransactionType.Like => 6
  | TransactionType.PhotoShare => 7
  | TransactionType.BlockUser => 8
  | TransactionType.VideoCall => 9
  | TransactionType.ReportUser => 10
  | TransactionType.KeyShare => 11

/-- Byte encoding of one `Transaction`, field by field in declaration order
(models the canonical `serde_json` serialization, which feeds the hash). -/
def encTx (tx : Transaction) : List Nat :=
  encTxType tx.transaction_type ::
    (encStr tx.sender_id ++ encStr tx.receiver_id ++
     encOpt encRat tx.amount ++
     encOpt (fun d => [d]) tx.duration ++
     encOpt encStr tx.reason ++
     encOpt encStr tx.user_id ++
     encOpt encBytes tx.updated_profile ++
     encOpt encPairStr tx.match_pair ++
     encOpt encPairStr tx.revoked_key_pair ++
     encOpt encBytes tx.encrypted_key ++
     encOpt encBytes tx.encrypted_content ++
     encStr tx.timestamp ++ encStr tx.global_tx_id)

/-- Models `serde_json::to_vec(&self.transactions)`: the canonical byte
serialization of the transaction list. -/
def serializeTransactions (txs : List Transaction) : List Nat :=
  txs.length :: (txs.map encTx).flatten

/-- `GlobalBlock` from `src/main.rs`. -/
structure GlobalBlock where
  transactions : List Transaction
  previous_hash : String
  nonce : Nat
  hash : String
  timestamp : Nat
  miner_name : String
  deriving DecidableEq, Repr

/-- `GlobalBlock::compute_hash`: digest of the serialized transactions, the
previous hash bytes, the nonce as big-endian bytes and the timestamp as
big-endian bytes, hex encoded. -/
def GlobalBlock.compute_hash (b : GlobalBlock) : String :=
  hexEncode256 (hashBytesNat
    (serializeTransactions b.transactions ++ strBytes b.previous_hash ++
     be8 b.nonce ++ be8 b.timestamp))

/-- `Miner` from `src/main.rs` (`mining_power: f64` modelled as a rational). -/
structure Miner where
  name : String
  mining_power : Rat
  deriving DecidableEq, Repr

/-- `Miner::new`. -/
def Miner.new (name : String) (mining_power : Rat) : Miner :=
  { name := name, mining_power := mining_power }

/-- The nonce stride `(self.mining_power * 1000.0) as u64` of
`Miner::mine_block`: an `as` cast from `f64` to `u64` truncates toward zero
and saturates at the ends of the `u64` range. -/
def minerIncrement (m : Miner) : Nat :=
  min (fmul m.mining_power 1000).floor.toNat (U64SIZE - 1)

/-- `Miner::mine_block`, fuel-indexed: the Rust loop is unbounded; `none`
models non-termination within the given number of attempts.  Each failed
attempt advances the nonce by `minerIncrement` with `u64` wrap-around. -/
def Miner.mine_block (m : Miner) : Nat → GlobalBlock → Nat → Option GlobalBlock
  | 0, _, _ => none
  | fuel + 1, b, difficulty =>
    let b' : GlobalBlock := { b with hash := b.compute_hash }
    if strStartsWith b'.hash (zeroTarget difficulty) then
      some b'
    else
      m.mine_block fuel { b' with nonce := (b'.nonce + minerIncrement m) % U64SIZE } difficulty

/-- `GlobalBlock::new`: stamps the caller-supplied wall-clock timestamp, sets
the nonce to 0 and delegates to the miner's proof-of-work search. -/
def GlobalBlock.new (transactions : List Transaction) (previous_hash : String)
    (miner : Miner) (difficulty : Nat) (timestamp : Nat) (fuel : Nat) :
    Option GlobalBlock :=
  miner.mine_block fuel
    { transactions := transactions
      previous_hash := previous_hash
      nonce := 0
      hash := ""
      timestamp := timestamp
      miner_name := miner.name } difficulty

/-- `GlobalLedger` from `src/main.rs` (`f64` fields modelled as rationals). -/
structure GlobalLedger where
  chain : List GlobalBlock
  difficulty : Rat
  max_difficulty : Nat
  min_difficulty : Nat
  target_block_time : Rat
  adjustment_interval : Nat
  miners : List Miner
  mining_durations : List Rat
  ema_block_time : Option Rat
  deriving DecidableEq, Repr

/-- The `self.difficulty as usize` cast used when mining: truncation toward
zero, saturating (negative values become 0). -/
def ratToUsize (q : Rat) : Nat :=
  min q.floor.toNat (U64SIZE - 1)

/-- `GlobalLedger::new`: mines the genesis block with the fixed synthetic
PeaceTransfer transaction using the first miner of the roster; `none` models
the panic on an empty roster and genesis mining running out of fuel. -/
def GlobalLedger.new (initial_difficulty max_difficulty min_difficulty : Nat)
    (target_block_time : Rat) (adjustment_interval : Nat) (miners : List Miner)
    (genesis_timestamp : Nat) (fuel : Nat) : Option GlobalLedger :=
  match miners.head? with
  | none => none
  | some genesis_miner =>
    match GlobalBlock.new
        [Transaction.new_peace_transfer "system" "genesis" 0 "2025-03-04" "genesis_tx"]
        "0" genesis_miner initial_difficulty genesis_timestamp fuel with
    | none => none
    | some genesis_block =>
      some
        { chain := [genesis_block]
          difficulty := (initial_difficulty : Rat)
          max_difficulty := max_difficulty
          min_difficulty := min_difficulty
          target_block_time := target_block_time
          adjustment_interval := adjustment_interval
          miners := miners
          mining_durations := []
          ema_block_time := none }

/-- `GlobalLedger::adjust_difficulty`: EMA-based difficulty retargeting with
band `[target*0.5, target*1.5]` and clamping to `[min, max]`; returns the
ledger unchanged when fewer than 2 recent mining durations are available. -/
def GlobalLedger.adjust_difficulty (s : GlobalLedger) : GlobalLedger :=
  let start_idx :=
    if s.mining_durations.length > s.adjustment_interval then
      s.mining_durations.length - s.adjustment_interval
    else 0
  let recent_durations := s.mining_durations.drop start_idx
  if recent_durations.length < 2 then s
  else
    let avg_block_time :=
      s.ema_block_time.getD (fdiv (fsum recent_durations) (recent_durations.length : Rat))
    let lower_threshold := fmul s.target_block_time (mkRat 1 2)
    let upper_threshold := fmul s.target_block_time (mkRat 3 2)
    if avg_block_time < lower_threshold then
      let d := fmul s.difficulty (fdiv s.target_block_time avg_block_time)
      { s with difficulty := if d > (s.max_difficulty : Rat) then (s.max_difficulty : Rat) else d }
    else if avg_block_time > upper_threshold then
      let d := fmul s.difficulty (fdiv s.target_block_time avg_block_time)
      { s with difficulty := if d < (s.min_difficulty : Rat) then (s.min_difficulty : Rat) else d }
    else s

/-- The EMA fold of `add_block`: `ALPHA * duration + (1 - ALPHA) * ema` with
`ALPHA = 0.3`, or the plain duration when no EMA exists yet. -/
def newEma (s : GlobalLedger) (duration : Rat) : Rat :=
  match s.ema_block_time with
  | some ema => fadd (fmul (mkRat 3 10) duration) (fmul (mkRat 7 10) ema)
  | none => duration

/-- `GlobalLedger::add_block`: selects the miner given by the caller-supplied
random index, mines a block at the floored current difficulty, appends it,
records the measured duration, folds it into the EMA (`alpha = 0.3`) and
retargets when the new chain length is a multiple of the adjustment interval.
`none` models the empty-roster panic, mining running out of fuel, and the
`% 0` panic when the adjustment interval is 0. -/
def GlobalLedger.add_block (s : GlobalLedger) (transactions : List Transaction)
    (minerIdx : Nat) (duration : Rat) (timestamp : Nat) (fuel : Nat) :
    Option (GlobalLedger × String) :=
  if s.adjustment_interval = 0 then none
  else
    match s.miners.get? (minerIdx % s.miners.length) with
    | none => none
    | some miner =>
      let previous_hash := (s.chain.getLast?.map GlobalBlock.hash).getD "0"
      match GlobalBlock.new transactions previous_hash miner (ratToUsize s.difficulty)
          timestamp fuel with
      | none => none
      | some block =>
        let s1 : GlobalLedger :=
          { s with
            mining_durations := s.mining_durations ++ [duration]
            chain := s.chain ++ [block]
            ema_block_time := some (newEma s duration) }
        let s2 := if s1.chain.length % s.adjustment_interval = 0 then s1.adjust_difficulty else s1
        some (s2, miner.name)

/-- `GlobalLedger::get_chain`. -/
def GlobalLedger.get_chain (s : GlobalLedger) : List GlobalBlock :=
  s.chain

/-- `GlobalLedger::get_difficulty`. -/
def GlobalLedger.get_difficulty (s : GlobalLedger) : Rat :=
  s.difficulty

/-- One externally-supplied `add_block` call: the transactions plus the
nondeterministic inputs of the call (random miner index, measured mining
duration, wall-clock timestamp, mining fuel). -/
structure BlockEvent where
  txs : List Transaction
  minerIdx : Nat
  duration : Rat
  timestamp : Nat
  fuel : Nat

/-- Runs a sequence of `add_block` calls. -/
def runLedger (s : GlobalLedger) : List BlockEvent → Option GlobalLedger
  | [] => some s
  | e :: es =>
    match s.add_block e.txs e.minerIdx e.duration e.timestamp e.fuel with
    | none => none
    | some (s', _) => runLedger s' es

/-- Runs a sequence of `add_block` calls, recording for each appended block
the integer difficulty in force when it was mined. -/
def runLedgerD (s : GlobalLedger) : List BlockEvent → Option (GlobalLedger × List Nat)
  | [] => some (s, [])
  | e :: es =>
    match s.add_block e.txs e.minerIdx e.duration e.timestamp e.fuel with
    | none => none
    | some (s', _) =>
      match runLedgerD s' es with
      | none => none
      | some (sf, ds) => some (sf, ratToUsize s.difficulty :: ds)

/-- The retroactive sweep of `main` (src/main.rs lines 1243-1248): every block
of the chain drops the KeyRevocation transactions carrying the given revoked
identity pair; block hashes are not recomputed. -/
def sweepStaleRevocation (pair : String × String) (s : GlobalLedger) : GlobalLedger :=
  { s with
    chain := s.chain.map (fun b =>
      { b with
        transactions := b.transactions.filter (fun tx =>
          !(tx.transaction_type = TransactionType.KeyRevocation) ||
            !(tx.revoked_key_pair = some pair)) }) }

/-- Modelled: the AES-256-GCM AEAD of the external `aes_gcm` crate as ideal
authenticated encryption: the ciphertext binds the key, the nonce and the
plaintext, and decryption succeeds exactly for the matching key and nonce. -/
def cipherEncrypt (key nonce pt : List Nat) : List Nat :=
  key.length :: key ++ nonce.length :: nonce ++ pt

/-- Modelled: ideal AEAD decryption, the partial inverse of `cipherEncrypt`;
`none` models an authentication failure. -/
def cipherDecrypt (key nonce : List Nat) : List Nat → Option (List Nat)
  | [] => none
  | kl :: rest =>
    match rest.drop kl with
    | [] => none
    | nl :: rest2 =>
      if rest.take kl = key ∧ kl = key.length ∧ rest2.take nl = nonce ∧ nl = nonce.length then
        some (rest2.drop nl)
      else none

/-- `RawProfileData` from `src/main.rs`. -/
structure RawProfileData where
  name : String
  age : Nat
  bio : String
  interests : List String
  location : String
  deriving DecidableEq, Repr

/-- Models `serde_json::to_vec` of a `RawProfileData` record: a canonical
injective byte serialization, field by field. -/
def encodeRaw (r : RawProfileData) : List Nat :=
  encStr r.name ++ [r.age] ++ encStr r.bio ++
    (r.interests.length :: (r.interests.map encStr).flatten) ++ encStr r.location

/-- Decodes one length-marked string from a byte stream. -/
def decStr : List Nat → Option (String × List Nat)
  | [] => none
  | n :: rest =>
    if n ≤ rest.length then
      some (String.mk ((rest.take n).map Char.ofNat), rest.drop n)
    else none

/-- Decodes a counted list of length-marked strings from a byte stream. -/
def decStrList : Nat → List Nat → Option (List String × List Nat)
  | 0, l => some ([], l)
  | n + 1, l =>
    match decStr l with
    | none => none
    | some (s, l') =>
      match decStrList n l' with
      | none => none
      | some (ss, l'') => some (s :: ss, l'')

/-- Models `serde_json::from_slice::<RawProfileData>`: the partial inverse of
`encodeRaw`; `none` models a deserialization failure (including trailing
garbage, which `serde_json` rejects). -/
def decodeRaw (l : List Nat) : Option RawProfileData :=
  match decStr l with
  | none => none
  | some (name, l1) =>
    match l1 with
    | [] => none
    | age :: l2 =>
      match decStr l2 with
      | none => none
      | some (bio, l3) =>
        match l3 with
        | [] => none
        | ni :: l4 =>
          match decStrList ni l4 with
          | none => none
          | some (interests, l5) =>
            match decStr l5 with
            | none => none
            | some (location, l6) =>
              if l6 = [] then
                some { name := name, age := age, bio := bio,
                       interests := interests, location := location }
              else none

/-- `Profile` from `src/main.rs`: user id, `nonce ‖ ciphertext` payload,
deletion flag. -/
structure Profile where
  user_id : String
  encrypted_data : List Nat
  is_deleted : Bool
  deriving DecidableEq, Repr

/-- `Profile::new`: serializes and AEAD-encrypts the raw record under the
owning key with the caller-supplied random 12-byte nonce, storing
`nonce ‖ ciphertext`. -/
def Profile.new (user_id : String) (raw_data : RawProfileData) (key : List Nat)
    (nonce_bytes : List Nat) : Profile :=
  { user_id := user_id
    encrypted_data := nonce_bytes ++ cipherEncrypt key nonce_bytes (encodeRaw raw_data)
    is_deleted := false }

/-- `Profile::decrypt`: `none` when the profile is deleted, the payload is
shorter than the 12-byte nonce, or AEAD authentication / deserialization
fails. -/
def Profile.decrypt (p : Profile) (key : List Nat) : Option RawProfileData :=
  if p.is_deleted then none
  else if p.encrypted_data.length < 12 then none
  else
    match cipherDecrypt key (p.encrypted_data.take 12) (p.encrypted_data.drop 12) with
    | none => none
    | some plaintext => decodeRaw plaintext

/-- `Profile::update`: re-encrypts new raw data under the key with a fresh
caller-supplied nonce and returns the new `nonce ‖ ciphertext` payload. -/
def Profile.update (_ : Profile) (new_data : RawProfileData) (key : List Nat)
    (nonce_bytes : List Nat) : List Nat :=
  nonce_bytes ++ cipherEncrypt key nonce_bytes (encodeRaw new_data)

/-- `Interaction` from `src/main.rs`. -/
structure Interaction where
  event_type : String
  user_id : String
  target_id : String
  score : Nat
  deriving DecidableEq, Repr

/-- `ProfileFilter` from `src/main.rs`. -/
structure ProfileFilter where
  location : Option String
  min_age : Option Nat
  max_age : Option Nat
  interests : Option (List String)
  bio_keywords : Option (List String)
  min_score : Option Nat
  recent_matches : Option Bool
  deriving DecidableEq, Repr

/-- The shared-key store `HashMap<(String, String), [u8; 32]>`, modelled as an
association list from (holder, subject) identity pairs to symmetric keys. -/
def KeyStore : Type :=
  List ((String × String) × List Nat)

/-- `HashMap::get` on the key store (first matching entry). -/
def ksLookup : KeyStore → String × String → Option (List Nat)
  | [], _ => none
  | (k, v) :: rest, p => if k = p then some v else ksLookup rest p

/-- `HashMap::remove` on the key store. -/
def ksRemove (ks : KeyStore) (p : String × String) : KeyStore :=
  ks.filter (fun e => !(e.1 = p))

/-- `UserShard` from `src/main.rs`. -/
structure UserShard where
  user_id : String
  balance : Rat
  transactions : List Transaction
  interactions : List Interaction
  messages : List Transaction
  profile : Profile
  relevant_profiles : List Profile
  deriving DecidableEq, Repr

/-- `UserShard::new`. -/
def UserShard.new (user_id : String) (balance : Rat) (transactions : List Transaction)
    (interactions : List Interaction) (profile : Profile) : UserShard :=
  { user_id := user_id, balance := balance, transactions := transactions
    interactions := interactions, messages := [], profile := profile
    relevant_profiles := [] }

/-- Sum of the scores of all interactions in which the target appears as
actor or target. -/
def interactionScore (inters : List Interaction) (target_id : String) : Nat :=
  ((inters.filter
      (fun i => i.target_id = target_id ∨ i.user_id = target_id)).map
    Interaction.score).sum

/-- `UserShard::calculate_interaction_score`. -/
def UserShard.calculate_interaction_score (s : UserShard) (target_id : String) : Nat :=
  interactionScore s.interactions target_id

/-- The Match identity pairs found anywhere in the chain. -/
def matchPairs (chain : List GlobalBlock) : List (String × String) :=
  ((chain.map GlobalBlock.transactions).flatten.filterMap
    (fun tx =>
      if tx.transaction_type = TransactionType.Match then tx.match_pair else none))

/-- The KeyRevocation identity pairs found anywhere in the chain. -/
def revokedPairs (chain : List GlobalBlock) : List (String × String) :=
  ((chain.map GlobalBlock.transactions).flatten.filterMap
    (fun tx =>
      if tx.transaction_type = TransactionType.KeyRevocation then tx.revoked_key_pair
      else none))

/-- The (sender, receiver) pairs of BlockUser transactions found anywhere in
the chain. -/
def blockedPairs (chain : List GlobalBlock) : List (String × String) :=
  ((chain.map GlobalBlock.transactions).flatten.filterMap
    (fun tx =>
      if tx.transaction_type = TransactionType.BlockUser then
        some (tx.sender_id, tx.receiver_id)
      else none))

/-- Number of ReportUser transactions naming the user as receiver, across the
whole chain (the `reported_users` count, with absence read as 0). -/
def reportCount (chain : List GlobalBlock) (uid : String) : Nat :=
  (chain.map GlobalBlock.transactions).flatten.countP
    (fun tx =>
      decide (tx.transaction_type = TransactionType.ReportUser ∧ tx.receiver_id = uid))

/-- Whether the candidate has a Match transaction with the fetcher, in either
orientation, among the recorded match pairs. -/
def isRecentMatch (recent : List (String × String)) (fetcher_id uid : String) : Prop :=
  ∃ p ∈ recent, (p.1 = fetcher_id ∧ p.2 = uid) ∨ (p.2 = fetcher_id ∧ p.1 = uid)

instance (recent : List (String × String)) (f u : String) :
    Decidable (isRecentMatch recent f u) := by
  unfold isRecentMatch; infer_instance

/-- The sequence of optional filter predicates applied to a decrypted
profile, mirroring the `matches` flag of `fetch_relevant_profiles`. -/
def passesFilter (flt : ProfileFilter) (raw : RawProfileData) (score : Nat)
    (recentOk : Bool) : Prop :=
  (∀ loc ∈ flt.location, raw.location = loc) ∧
  (∀ a ∈ flt.min_age, ¬raw.age < a) ∧
  (∀ a ∈ flt.max_age, ¬raw.age > a) ∧
  (∀ ints ∈ flt.interests, ∃ i ∈ raw.interests, i ∈ ints) ∧
  (∀ kws ∈ flt.bio_keywords,
    ∃ kw ∈ kws, strContains raw.bio.toLower kw.toLower = true) ∧
  (∀ ms ∈ flt.min_score, ¬score < ms) ∧
  (flt.recent_matches.getD false = true → recentOk = true)

instance (flt : ProfileFilter) (raw : RawProfileData) (score : Nat) (recentOk : Bool) :
    Decidable (passesFilter flt raw score recentOk) := by
  unfold passesFilter; infer_instance

/-- Stable descending insertion by score (the element is placed before the
first strictly smaller score), modelling the stable
`sort_by(|a, b| b.1.cmp(&a.1))`. -/
def insertScoreDesc (x : Profile × Nat) : List (Profile × Nat) → List (Profile × Nat)
  | [] => [x]
  | y :: ys => if y.2 < x.2 then x :: y :: ys else y :: insertScoreDesc x ys

/-- Stable descending sort by score. -/
def sortScoreDesc (l : List (Profile × Nat)) : List (Profile × Nat) :=
  l.foldr insertScoreDesc []

/-- The profile scan loop of `fetch_relevant_profiles`, accumulating the
scored surviving profiles and the inaccessible user ids in scan order. -/
def fetchLoop (inters : List Interaction) (flt : ProfileFilter) (ks : KeyStore)
    (fetcher_id : String) (recent revoked blocked : List (String × String))
    (chain : List GlobalBlock) :
    List Profile → List (Profile × Nat) × List String
  | [] => ([], [])
  | p :: rest =>
    let acc := fetchLoop inters flt ks fetcher_id recent revoked blocked chain rest
    if p.is_deleted = true ∨ p.user_id = fetcher_id then acc
    else if (fetcher_id, p.user_id) ∈ blocked ∨ (p.user_id, fetcher_id) ∈ blocked then acc
    else if 2 ≤ reportCount chain p.user_id then acc
    else
      match ksLookup ks (fetcher_id, p.user_id) with
      | some decryption_key =>
        if (p.user_id, fetcher_id) ∈ revoked then (acc.1, p.user_id :: acc.2)
        else
          match p.decrypt decryption_key with
          | some raw_data =>
            let score := interactionScore inters p.user_id
            if passesFilter flt raw_data score
                (decide (isRecentMatch recent fetcher_id p.user_id)) then
              ((p, score) :: acc.1, acc.2)
            else acc
          | none => acc
      | none => (acc.1, p.user_id :: acc.2)

/-- `UserShard::fetch_relevant_profiles`: derives the match / revocation /
block / report facts from the chain, scans the candidate database, stores the
(optionally score-sorted) surviving profiles in the shard's cache and returns
the inaccessible user ids. -/
def UserShard.fetch_relevant_profiles (s : UserShard) (flt : ProfileFilter)
    (mock_profile_db : List Profile) (shared_keys : KeyStore) (fetcher_id : String)
    (ledger : GlobalLedger) : UserShard × List String :=
  let recent := if flt.recent_matches.getD false then matchPairs ledger.get_chain else []
  let revoked := revokedPairs ledger.get_chain
  let blocked := blockedPairs ledger.get_chain
  let results :=
    fetchLoop s.interactions flt shared_keys fetcher_id recent revoked blocked
      ledger.get_chain mock_profile_db
  let finalScored :=
    if flt.min_score.isSome then sortScoreDesc results.1 else results.1
  ({ s with relevant_profiles := finalScored.map Prod.fst }, results.2)

/-- Marks the first profile of the database with the given user id as deleted
(`iter_mut().find(..)` mutates only the first match). -/
def markFirstDeleted (uid : String) : List Profile → List Profile
  | [] => []
  | p :: rest =>
    if p.user_id = uid then { p with is_deleted := true } :: rest
    else p :: markFirstDeleted uid rest

/-- `UserShard::delete_profile`: sets the shard profile's deletion flag, marks
the first matching database profile deleted, and appends one block carrying
the ProfileDeletion transaction. -/
def UserShard.delete_profile (s : UserShard) (ledger : GlobalLedger)
    (mock_profile_db : List Profile) (timestamp global_tx_id : String)
    (minerIdx : Nat) (duration : Rat) (block_time : Nat) (fuel : Nat) :
    UserShard × List Profile × Option (GlobalLedger × String) :=
  let s' := { s with profile := { s.profile with is_deleted := true } }
  let db' := markFirstDeleted s.user_id mock_profile_db
  let deletion_tx := Transaction.new_profile_deletion s.user_id timestamp global_tx_id
  (s', db', ledger.add_block [deletion_tx] minerIdx duration block_time fuel)

/-- `UserShard::revoke_key`: removes the Key Store entry for
`(target, self)` and appends one block carrying the KeyRevocation
transaction from self to target. -/
def UserShard.revoke_key (s : UserShard) (ledger : GlobalLedger) (target_id : String)
    (shared_keys : KeyStore) (timestamp global_tx_id : String)
    (minerIdx : Nat) (duration : Rat) (block_time : Nat) (fuel : Nat) :
    KeyStore × Option (GlobalLedger × String) :=
  let reverse_key_pair := (target_id, s.user_id)
  let shared_keys' := ksRemove shared_keys reverse_key_pair
  let revocation_tx := Transaction.new_key_revocation s.user_id target_id timestamp global_tx_id
  (shared_keys', ledger.add_block [revocation_tx] minerIdx duration block_time fuel)

/-- One failed mining attempt advances the nonce by the miner's stride with
`u64` wrap-around. -/
def nonceStep (m : Miner) (n : Nat) : Nat :=
  (n + minerIncrement m) % U64SIZE

/-- Miner with mining power 0.0015, whose truncated stride is 1 while its
rounded stride is 2. -/
def cexMiner : Miner := Miner.new "M" (mkRat 3 2000)

/-- A block whose model hash misses a 1-zero target at nonce 0 and meets it
at nonce 1. -/
def cexBlock : GlobalBlock :=
  { transactions := [], previous_hash := "p", nonce := 0, hash := ""
    timestamp := 3, miner_name := "M" }

/-- Block mined instantly at difficulty 0 for the C3 witness. -/
def wBlock3 : GlobalBlock :=
  { transactions := [], previous_hash := "w", nonce := 5, hash := ""
    timestamp := 1, miner_name := "W" }

/-- The hash-linkage relation between consecutive blocks. -/
def HashLinked (a b : GlobalBlock) : Prop :=
  b.previous_hash = a.hash

instance (a b : GlobalBlock) : Decidable (HashLinked a b) := by
  unfold HashLinked; infer_instance

/-- Miner used by the concrete witness runs. -/
def wMiner : Miner := Miner.new "W" 1

/-- Fallback ledger value for extracting concrete run results. -/
def junkLedger : GlobalLedger :=
  { chain := [], difficulty := 0, max_difficulty := 0, min_difficulty := 0
    target_block_time := 0, adjustment_interval := 1, miners := []
    mining_durations := [], ema_block_time := none }

/-- Concrete freshly-constructed ledger for the C5 witness. -/
def w5s0 : GlobalLedger :=
  (GlobalLedger.new 0 4 1 (mkRat 5 1) 100 [wMiner] 11 1).getD junkLedger

/-- One concrete `add_block` call for the C5 witness. -/
def w5evs : List BlockEvent :=
  [{ txs := [], minerIdx := 0, duration := mkRat 1 1, timestamp := 12, fuel := 1 }]

/-- Result of the concrete C5 witness run. -/
def w5s : GlobalLedger := (runLedger w5s0 w5evs).getD junkLedger

/-- Proof-of-work validity of one stored block at integer difficulty `d`:
recomputing the hash from the stored fields yields the stored hash, and the
hash starts with `d` zero hex digits. -/
def BlockPow (b : GlobalBlock) (d : Nat) : Prop :=
  b.hash = b.compute_hash ∧ strStartsWith b.hash (zeroTarget d) = true

instance (b : GlobalBlock) (d : Nat) : Decidable (BlockPow b d) := by
  unfold BlockPow; infer_instance

/-- The KeyRevocation transaction removed by the sweep in the C1
counterexample. -/
def c1rev : Transaction :=
  Transaction.new_key_revocation "alice" "bob" "2025-03-08" "revoke_alice_bob"

/-- Concrete freshly-constructed ledger for the C1 counterexample. -/
def c1s0 : GlobalLedger :=
  (GlobalLedger.new 0 4 1 (mkRat 5 1) 100 [wMiner] 21 1).getD junkLedger

/-- One `add_block` call carrying the revocation, for the C1 counterexample. -/
def c1evs : List BlockEvent :=
  [{ txs := [c1rev], minerIdx := 0, duration := mkRat 1 1, timestamp := 22, fuel := 1 }]

/-- The C1 counterexample chain after the retroactive sweep. -/
def c1swept : GlobalLedger :=
  sweepStaleRevocation ("alice", "bob") ((runLedger c1s0 c1evs).getD junkLedger)

/-- Concrete freshly-constructed ledger for the C1 witness. -/
def w1s0 : GlobalLedger :=
  (GlobalLedger.new 0 4 1 (mkRat 5 1) 100 [wMiner] 31 1).getD junkLedger

/-- One concrete `add_block` call for the C1 witness. -/
def w1evs : List BlockEvent :=
  [{ txs := [], minerIdx := 0, duration := mkRat 1 1, timestamp := 32, fuel := 1 }]

/-- Result of the concrete C1 witness run, with its difficulty trace. -/
def w1run : GlobalLedger × List Nat := (runLedgerD w1s0 w1evs).getD (junkLedger, [])

/-- Reference computation following the claim's words (C2) as amended: after
an `add_block` call on state `s` with measured duration `dur`, retargeting
runs exactly when the post-append chain length is a multiple of
`adjustment_interval`; it leaves difficulty unchanged when fewer than 2
recent mining durations are recorded, and otherwise compares the EMA block
time against `target * 0.5` and `target * 1.5`, scaling by `target / avg`
with clamping to `max_difficulty` (fast side) or `min_difficulty` (slow
side), leaving difficulty unchanged inside the band. -/
def claimedDifficultyAfter (s : GlobalLedger) (dur : Rat) : Rat :=
  if (s.chain.length + 1) % s.adjustment_interval = 0 then
    let durs := s.mining_durations ++ [dur]
    let start_idx := if durs.length > s.adjustment_interval then
        durs.length - s.adjustment_interval
      else 0
    let recent := durs.drop start_idx
    if recent.length < 2 then s.difficulty
    else
      let avg := newEma s dur
      if avg < fmul s.target_block_time (mkRat 1 2) then
        let d := fmul s.difficulty (fdiv s.target_block_time avg)
        if d > (s.max_difficulty : Rat) then (s.max_difficulty : Rat) else d
      else if avg > fmul s.target_block_time (mkRat 3 2) then
        let d := fmul s.difficulty (fdiv s.target_block_time avg)
        if d < (s.min_difficulty : Rat) then (s.min_difficulty : Rat) else d
      else s.difficulty
  else s.difficulty

/-- Reference computation following the claim's words (C2) exactly as stated,
without the fewer-than-2-durations early return: whenever retargeting
triggers, the EMA block time is compared against the band and difficulty is
scaled and clamped accordingly. -/
def claimedDifficultyStrict (s : GlobalLedger) (dur : Rat) : Rat :=
  if (s.chain.length + 1) % s.adjustment_interval = 0 then
    let avg := newEma s dur
    if avg < fmul s.target_block_time (mkRat 1 2) then
      let d := fmul s.difficulty (fdiv s.target_block_time avg)
      if d > (s.max_difficulty : Rat) then (s.max_difficulty : Rat) else d
    else if avg > fmul s.target_block_time (mkRat 3 2) then
      let d := fmul s.difficulty (fdiv s.target_block_time avg)
      if d < (s.min_difficulty : Rat) then (s.min_difficulty : Rat) else d
    else s.difficulty
  else s.difficulty

/-- Concrete freshly-constructed ledger for the C2 counterexample
(adjustment interval 2, so the first retarget fires with one duration). -/
def c2s0 : GlobalLedger :=
  (GlobalLedger.new 0 4 1 (mkRat 5 1) 2 [wMiner] 41 1).getD junkLedger

/-- Result of the C2 counterexample `add_block` call. -/
def c2res : GlobalLedger × String :=
  (c2s0.add_block [] 0 (mkRat 10 1) 42 1).getD (junkLedger, "")

/-- Concrete freshly-constructed ledger for the C2 witness. -/
def w2s0 : GlobalLedger :=
  (GlobalLedger.new 0 4 1 (mkRat 5 1) 100 [wMiner] 51 1).getD junkLedger

/-- Result of the C2 witness `add_block` call. -/
def w2res : GlobalLedger × String :=
  (w2s0.add_block [] 0 (mkRat 1 1) 52 1).getD (junkLedger, "")

/-- Difficulty-bounds plus EMA-positivity invariant of a ledger state at
fixed configured bounds. -/
def LedgerInv (mn mx : Nat) (s : GlobalLedger) : Prop :=
  s.min_difficulty = mn ∧ s.max_difficulty = mx ∧
  (mn : Rat) ≤ s.difficulty ∧ s.difficulty ≤ (mx : Rat) ∧
  (∀ e, s.ema_block_time = some e → 0 < e)

/-- Concrete freshly-constructed ledger for the C4 witness
(`min = 0 ≤ initial = 0 ≤ max = 4`, mined at difficulty 0). -/
def w4s0 : GlobalLedger :=
  (GlobalLedger.new 0 4 0 (mkRat 5 1) 100 [wMiner] 61 1).getD junkLedger

/-- One concrete `add_block` call with positive duration for the C4 witness. -/
def w4ev : BlockEvent :=
  { txs := [], minerIdx := 0, duration := mkRat 1 1, timestamp := 62, fuel := 1 }

/-- Result of the concrete C4 witness run. -/
def w4s : GlobalLedger := (runLedger w4s0 [w4ev]).getD junkLedger

/-- Concrete key store for the C6 witness: Alice and Bob hold each other's
profile keys. -/
def w6ks : KeyStore :=
  [(("bob", "alice"), [1, 2, 3]), (("alice", "bob"), [4, 5, 6])]

/-- Concrete shard for the C6 witness (Alice). -/
def w6shard : UserShard :=
  UserShard.new "alice" 0 [] []
    { user_id := "alice", encrypted_data := [], is_deleted := false }

/-- The pre-filters a candidate must survive before key lookup: not deleted,
not the fetcher, no BlockUser link in either direction, and fewer than 2
reports. -/
def PassPre (f : String) (blocked : List (String × String))
    (chain : List GlobalBlock) (p : Profile) : Prop :=
  p.is_deleted = false ∧ p.user_id ≠ f ∧
  ¬((f, p.user_id) ∈ blocked ∨ (p.user_id, f) ∈ blocked) ∧
  reportCount chain p.user_id < 2

/-- The two reasons a surviving candidate is reported inaccessible: no Key
Store entry under (fetcher, candidate), or an entry revoked by a chain
KeyRevocation (candidate, fetcher). -/
def InaccWhy (f : String) (ks : KeyStore) (revoked : List (String × String))
    (p : Profile) : Prop :=
  ksLookup ks (f, p.user_id) = none ∨
  (∃ key, ksLookup ks (f, p.user_id) = some key ∧ (p.user_id, f) ∈ revoked)

instance (f : String) (blocked : List (String × String)) (chain : List GlobalBlock)
    (p : Profile) : Decidable (PassPre f blocked chain p) := by
  unfold PassPre; infer_instance

instance (f : String) (ks : KeyStore) (revoked : List (String × String))
    (p : Profile) : Decidable (InaccWhy f ks revoked p) := by
  unfold InaccWhy
  cases ksLookup ks (f, p.user_id) with
  | none => exact Decidable.isTrue (Or.inl rfl)
  | some key =>
    by_cases h : (p.user_id, f) ∈ revoked
    · exact Decidable.isTrue (Or.inr ⟨key, rfl, h⟩)
    · refine Decidable.isFalse ?_
      rintro (hc | ⟨k, hk, hr⟩)
      · exact Option.noConfusion hc
      · exact h hr

/-- Symmetric key used by the fetch witnesses. -/
def wKey : List Nat := [9, 9]

/-- 12-byte nonce used by the fetch witnesses. -/
def wNonce : List Nat := List.replicate 12 0

/-- Raw profile record of the fetch witnesses. -/
def wRawBob : RawProfileData :=
  { name := "Bob", age := 30, bio := "hikes", interests := ["hiking"]
    location := "CA" }

/-- Bob's encrypted profile for the fetch witnesses. -/
def wProfileBob : Profile := Profile.new "bob" wRawBob wKey wNonce

/-- Empty filter (no criteria) for the fetch witnesses. -/
def wFilterNone : ProfileFilter :=
  { location := none, min_age := none, max_age := none, interests := none
    bio_keywords := none, min_score := none, recent_matches := none }

/-- Alice's shard for the fetch witnesses. -/
def wShardAlice : UserShard :=
  UserShard.new "alice" 0 [] []
    { user_id := "alice", encrypted_data := [], is_deleted := false }

/-- Block carrying Bob's KeyRevocation of Alice for the C7 witness. -/
def w7block : GlobalBlock :=
  { transactions := [Transaction.new_key_revocation "bob" "alice" "t" "g"]
    previous_hash := "0", nonce := 0, hash := "", timestamp := 0
    miner_name := "M" }

/-- Ledger whose chain carries the reverse revocation for the C7 witness. -/
def w7ledger : GlobalLedger := { junkLedger with chain := [w7block] }

@[simp]
theorem compute_hash_set_hash (b : GlobalBlock) (h : String) :
    GlobalBlock.compute_hash { b with hash := h } = b.compute_hash := rfl

/-- Partial-correctness contract of the proof-of-work search: on success the
stored hash is the recomputation over the final fields, it meets the target,
all other block fields are untouched, and the final nonce is reached from the
initial one by some number of stride steps, one per failed attempt. -/
theorem mine_block_spec (m : Miner) :
    ∀ (fuel : Nat) (b b' : GlobalBlock) (d : Nat),
      m.mine_block fuel b d = some b' →
      b'.hash = b'.compute_hash ∧
      strStartsWith b'.hash (zeroTarget d) = true ∧
      b'.transactions = b.transactions ∧
      b'.previous_hash = b.previous_hash ∧
      b'.timestamp = b.timestamp ∧
      b'.miner_name = b.miner_name ∧
      ∃ k, k < fuel ∧ b'.nonce = (nonceStep m)^[k] b.nonce := by
  intro fuel
  induction fuel with
  | zero => intro b b' d h; simp [Miner.mine_block] at h
  | succ fuel ih =>
    intro b b' d h
    rw [Miner.mine_block] at h
    by_cases hs : strStartsWith (GlobalBlock.compute_hash b) (zeroTarget d) = true
    · simp only [hs, if_true, Option.some.injEq] at h
      subst h
      exact ⟨rfl, by simpa using hs, rfl, rfl, rfl, rfl, 0, Nat.succ_pos _, rfl⟩
    · simp only [hs, if_false] at h
      obtain ⟨h1, h2, h3, h4, h5, h6, k, hk, hn⟩ := ih _ _ _ h
      refine ⟨h1, h2, h3, h4, h5, h6, k + 1, Nat.succ_lt_succ hk, ?_⟩
      rw [hn, Function.iterate_succ_apply]
      rfl

/-- C3 (amended): whenever `mine_block` terminates, the block's hash field
equals the hash recomputed from the block's final fields and starts with
`difficulty` zero hex characters, and each failed attempt advances the nonce
by exactly the truncation of `mining_power * 1000` (not its rounding), with
`u64` wrap-around. -/
theorem claim3_mine_block_contract (m : Miner) (fuel : Nat) (b b' : GlobalBlock)
    (difficulty : Nat) (h : m.mine_block fuel b difficulty = some b') :
    b'.hash = b'.compute_hash ∧
    strStartsWith b'.hash (zeroTarget difficulty) = true ∧
    ∃ k, k < fuel ∧ b'.nonce = (nonceStep m)^[k] b.nonce := by
  obtain ⟨h1, h2, _, _, _, _, hk⟩ := mine_block_spec m fuel b b' difficulty h
  exact ⟨h1, h2, hk⟩

set_option maxRecDepth 4000 in
/-- C3 counterexample: mining `cexBlock` at difficulty 1 with `cexMiner`
succeeds after one failed attempt at nonce 1, so the failed attempt advanced
the nonce by the truncated stride 1 and not by `round(mining_power * 1000) = 2`
as the claim states. -/
theorem claim3_counterexample :
    minerIncrement cexMiner = 1 ∧
    round (cexMiner.mining_power * 1000) = (2 : Int) ∧
    (cexMiner.mine_block 5 cexBlock 1).map GlobalBlock.nonce = some 1 := by
  refine ⟨by decide, ?_, by decide⟩
  norm_num [cexMiner, Miner.new, round_eq]

set_option maxRecDepth 4000 in
/-- C3 witness: the contract evaluated on a concrete successful mining run. -/
theorem claim3_witness :
    cexMiner.mine_block 1 wBlock3 0 = some { wBlock3 with hash := wBlock3.compute_hash } ∧
    (({ wBlock3 with hash := wBlock3.compute_hash } : GlobalBlock).hash =
        ({ wBlock3 with hash := wBlock3.compute_hash } : GlobalBlock).compute_hash ∧
      strStartsWith ({ wBlock3 with hash := wBlock3.compute_hash } : GlobalBlock).hash
          (zeroTarget 0) = true ∧
      ∃ k, k < 1 ∧
        ({ wBlock3 with hash := wBlock3.compute_hash } : GlobalBlock).nonce =
          (nonceStep cexMiner)^[k] wBlock3.nonce) :=
  ⟨by decide, claim3_mine_block_contract cexMiner 1 wBlock3 _ 0 (by decide)⟩

theorem fmul_eq (a b : Rat) : fmul a b = a * b := by
  rw [fmul, Rat.mkRat_eq_divInt]
  conv_rhs => rw [← Rat.num_divInt_den a, ← Rat.num_divInt_den b, Rat.divInt_mul_divInt']
  push_cast
  rfl

theorem finv_eq (b : Rat) : finv b = b⁻¹ := by
  rw [Rat.inv_def']
  unfold finv
  by_cases hneg : b.num < 0
  · simp only [hneg, if_true, Rat.mkRat_eq_divInt]
    rw [Int.ofNat_natAbs_of_nonpos (le_of_lt hneg), ← Rat.neg_divInt_neg, neg_neg, neg_neg]
  · by_cases hpos : 0 < b.num
    · simp only [hneg, hpos, if_true, if_false, Rat.mkRat_eq_divInt]
      rw [Int.natAbs_of_nonneg (not_lt.1 hneg)]
    · have h0 : b.num = 0 := le_antisymm (not_lt.1 hpos) (not_lt.1 hneg)
      simp only [hneg, hpos, if_false, h0, Rat.divInt_zero]
      exact Rat.num_eq_zero.1 h0

theorem fdiv_eq (a b : Rat) : fdiv a b = a / b := by
  rw [fdiv, fmul_eq, finv_eq, div_eq_mul_inv]

theorem fadd_eq (a b : Rat) : fadd a b = a + b := by
  have ha : ((a.den : ℤ)) ≠ 0 := Int.natCast_ne_zero.2 a.den_nz
  have hb : ((b.den : ℤ)) ≠ 0 := Int.natCast_ne_zero.2 b.den_nz
  rw [fadd, Rat.mkRat_eq_divInt]
  conv_rhs => rw [← Rat.num_divInt_den a, ← Rat.num_divInt_den b,
    Rat.divInt_add_divInt _ _ ha hb]
  push_cast
  rfl

theorem fsum_aux (l : List Rat) : ∀ x : Rat, l.foldl fadd x = x + l.sum := by
  induction l with
  | nil => intro x; simp
  | cons a t ih =>
    intro x
    rw [List.foldl_cons, ih, fadd_eq, List.sum_cons, add_assoc]

theorem fsum_eq (l : List Rat) : fsum l = l.sum := by
  rw [fsum, fsum_aux, zero_add]

theorem adjust_shape (s : GlobalLedger) :
    ∃ q, s.adjust_difficulty = { s with difficulty := q } := by
  unfold GlobalLedger.adjust_difficulty
  dsimp only
  repeat' split
  all_goals exact ⟨_, rfl⟩

theorem add_block_spec (s : GlobalLedger) (txs : List Transaction) (i : Nat)
    (dur : Rat) (ts fuel : Nat) (s' : GlobalLedger) (nm : String)
    (h : s.add_block txs i dur ts fuel = some (s', nm)) :
    s.adjustment_interval ≠ 0 ∧
    ∃ b : GlobalBlock,
      b.hash = b.compute_hash ∧
      strStartsWith b.hash (zeroTarget (ratToUsize s.difficulty)) = true ∧
      b.previous_hash = (s.chain.getLast?.map GlobalBlock.hash).getD "0" ∧
      b.transactions = txs ∧ b.timestamp = ts ∧
      s' =
        (if (s.chain ++ [b]).length % s.adjustment_interval = 0 then
          GlobalLedger.adjust_difficulty
            { s with
              mining_durations := s.mining_durations ++ [dur]
              chain := s.chain ++ [b]
              ema_block_time := some (newEma s dur) }
        else
          { s with
            mining_durations := s.mining_durations ++ [dur]
            chain := s.chain ++ [b]
            ema_block_time := some (newEma s dur) }) := by
  unfold GlobalLedger.add_block at h
  by_cases h0 : s.adjustment_interval = 0
  · simp [h0] at h
  refine ⟨h0, ?_⟩
  simp only [h0, if_false] at h
  cases hm : s.miners.get? (i % s.miners.length) with
  | none => rw [hm] at h; simp at h
  | some miner =>
    rw [hm] at h
    simp only at h
    cases hb : GlobalBlock.new txs ((s.chain.getLast?.map GlobalBlock.hash).getD "0") miner
        (ratToUsize s.difficulty) ts fuel with
    | none => rw [hb] at h; simp at h
    | some b =>
      rw [hb] at h
      simp only [Option.some.injEq, Prod.mk.injEq] at h
      obtain ⟨hs, -⟩ := h
      rw [GlobalBlock.new] at hb
      obtain ⟨p1, p2, p3, p4, p5, p6, -⟩ := mine_block_spec miner fuel _ b _ hb
      refine ⟨b, p1, p2, by rw [p4], by rw [p3], by rw [p5], ?_⟩
      rw [← hs]

theorem new_spec (i mx mn : Nat) (tgt : Rat) (itv : Nat) (ms : List Miner)
    (ts fuel : Nat) (s0 : GlobalLedger)
    (h : GlobalLedger.new i mx mn tgt itv ms ts fuel = some s0) :
    ∃ g : GlobalBlock,
      g.hash = g.compute_hash ∧
      strStartsWith g.hash (zeroTarget i) = true ∧
      s0 = { chain := [g], difficulty := (i : Rat), max_difficulty := mx,
             min_difficulty := mn, target_block_time := tgt,
             adjustment_interval := itv, miners := ms, mining_durations := [],
             ema_block_time := none } := by
  unfold GlobalLedger.new at h
  cases hm : ms.head? with
  | none => rw [hm] at h; simp at h
  | some m0 =>
    rw [hm] at h
    simp only at h
    cases hb : GlobalBlock.new
        [Transaction.new_peace_transfer "system" "genesis" 0 "2025-03-04" "genesis_tx"]
        "0" m0 i ts fuel with
    | none => rw [hb] at h; simp at h
    | some g =>
      rw [hb] at h
      simp only [Option.some.injEq] at h
      rw [GlobalBlock.new] at hb
      obtain ⟨p1, p2, -⟩ := mine_block_spec m0 fuel _ g _ hb
      exact ⟨g, p1, p2, h.symm⟩

theorem add_block_chain (s : GlobalLedger) (txs : List Transaction) (i : Nat)
    (dur : Rat) (ts fuel : Nat) (s' : GlobalLedger) (nm : String)
    (h : s.add_block txs i dur ts fuel = some (s', nm)) :
    ∃ b : GlobalBlock,
      s'.chain = s.chain ++ [b] ∧
      b.previous_hash = (s.chain.getLast?.map GlobalBlock.hash).getD "0" ∧
      b.hash = b.compute_hash ∧
      strStartsWith b.hash (zeroTarget (ratToUsize s.difficulty)) = true := by
  obtain ⟨-, b, p1, p2, p3, -, -, hs⟩ := add_block_spec s txs i dur ts fuel s' nm h
  refine ⟨b, ?_, p3, p1, p2⟩
  rw [hs]
  split
  · obtain ⟨q, hq⟩ := adjust_shape
      ({ s with
          mining_durations := s.mining_durations ++ [dur]
          chain := s.chain ++ [b]
          ema_block_time := some (newEma s dur) } : GlobalLedger)
    rw [hq]
  · rfl

theorem add_block_fields (s : GlobalLedger) (txs : List Transaction) (i : Nat)
    (dur : Rat) (ts fuel : Nat) (s' : GlobalLedger) (nm : String)
    (h : s.add_block txs i dur ts fuel = some (s', nm)) :
    s'.max_difficulty = s.max_difficulty ∧
    s'.min_difficulty = s.min_difficulty ∧
    s'.adjustment_interval = s.adjustment_interval ∧
    s'.target_block_time = s.target_block_time ∧
    s'.miners = s.miners ∧
    s'.mining_durations = s.mining_durations ++ [dur] ∧
    s'.ema_block_time = some (newEma s dur) := by
  obtain ⟨-, b, -, -, -, -, -, hs⟩ := add_block_spec s txs i dur ts fuel s' nm h
  rw [hs]
  split
  · obtain ⟨q, hq⟩ := adjust_shape
      ({ s with
          mining_durations := s.mining_durations ++ [dur]
          chain := s.chain ++ [b]
          ema_block_time := some (newEma s dur) } : GlobalLedger)
    rw [hq]
    exact ⟨rfl, rfl, rfl, rfl, rfl, rfl, rfl⟩
  · exact ⟨rfl, rfl, rfl, rfl, rfl, rfl, rfl⟩

theorem chain_linked_append (c : List GlobalBlock) (b : GlobalBlock)
    (hc : List.Chain' HashLinked c)
    (hb : b.previous_hash = (c.getLast?.map GlobalBlock.hash).getD "0") :
    List.Chain' HashLinked (c ++ [b]) := by
  rw [List.chain'_append]
  refine ⟨hc, List.chain'_singleton b, ?_⟩
  intro x hx y hy
  rw [List.head?_cons, Option.mem_def, Option.some.injEq] at hy
  subst hy
  rw [Option.mem_def] at hx
  rw [hx] at hb
  exact hb

theorem runLedger_linked (evs : List BlockEvent) :
    ∀ (s s' : GlobalLedger), runLedger s evs = some s' →
      List.Chain' HashLinked s.chain → List.Chain' HashLinked s'.chain := by
  induction evs with
  | nil => intro s s' h hc; rw [runLedger] at h; cases h; exact hc
  | cons e es ih =>
    intro s s' h hc
    rw [runLedger] at h
    cases hab : s.add_block e.txs e.minerIdx e.duration e.timestamp e.fuel with
    | none => rw [hab] at h; simp at h
    | some p =>
      rw [hab] at h
      obtain ⟨s1, nm⟩ := p
      obtain ⟨b, hchain, hprev, -, -⟩ :=
        add_block_chain s e.txs e.minerIdx e.duration e.timestamp e.fuel s1 nm hab
      exact ih s1 s' h (hchain ▸ chain_linked_append s.chain b hc hprev)

/-- C5: for every i > 0, the block at index i of the ledger's chain has
`previous_hash` equal to the stored hash of the block at index i-1; this holds
after ledger construction (singleton genesis chain) and is preserved by every
`add_block` call, here stated for any ledger reachable by a run of
`add_block` calls from a freshly constructed ledger. -/
theorem claim5_chain_linkage (i mx mn : Nat) (tgt : Rat) (itv : Nat)
    (ms : List Miner) (ts fuel : Nat) (s0 s : GlobalLedger) (evs : List BlockEvent)
    (h0 : GlobalLedger.new i mx mn tgt itv ms ts fuel = some s0)
    (hrun : runLedger s0 evs = some s) :
    List.Chain' HashLinked s.chain := by
  obtain ⟨g, -, -, rfl⟩ := new_spec i mx mn tgt itv ms ts fuel s0 h0
  exact runLedger_linked evs _ s hrun (List.chain'_singleton g)

set_option maxRecDepth 8000 in
/-- C5 witness: the linkage invariant evaluated on a concrete two-block run. -/
theorem claim5_witness :
    GlobalLedger.new 0 4 1 (mkRat 5 1) 100 [wMiner] 11 1 = some w5s0 ∧
    runLedger w5s0 w5evs = some w5s ∧
    List.Chain' HashLinked w5s.chain :=
  ⟨by decide, by decide,
    claim5_chain_linkage 0 4 1 (mkRat 5 1) 100 [wMiner] 11 1 w5s0 w5s w5evs
      (by decide) (by decide)⟩

theorem runLedgerD_pow (evs : List BlockEvent) :
    ∀ (s sf : GlobalLedger) (ds : List Nat),
      runLedgerD s evs = some (sf, ds) →
      ∀ pre : List Nat, List.Forall₂ BlockPow s.chain pre →
        List.Forall₂ BlockPow sf.chain (pre ++ ds) := by
  induction evs with
  | nil =>
    intro s sf ds h pre hpre
    rw [runLedgerD] at h
    simp only [Option.some.injEq, Prod.mk.injEq] at h
    obtain ⟨rfl, rfl⟩ := h
    simpa using hpre
  | cons e es ih =>
    intro s sf ds h pre hpre
    rw [runLedgerD] at h
    cases hab : s.add_block e.txs e.minerIdx e.duration e.timestamp e.fuel with
    | none => rw [hab] at h; simp at h
    | some p =>
      rw [hab] at h
      obtain ⟨s1, nm⟩ := p
      simp only at h
      cases hr : runLedgerD s1 es with
      | none => rw [hr] at h; simp at h
      | some q =>
        rw [hr] at h
        obtain ⟨sf', ds'⟩ := q
        simp only [Option.some.injEq, Prod.mk.injEq] at h
        obtain ⟨rfl, rfl⟩ := h
        obtain ⟨b, hchain, -, hh, hp⟩ :=
          add_block_chain s e.txs e.minerIdx e.duration e.timestamp e.fuel s1 nm hab
        have hstep : List.Forall₂ BlockPow s1.chain (pre ++ [ratToUsize s.difficulty]) := by
          rw [hchain]
          exact List.rel_append hpre (List.Forall₂.cons ⟨hh, hp⟩ List.Forall₂.nil)
        have := ih s1 sf' ds' hr (pre ++ [ratToUsize s.difficulty]) hstep
        simpa [List.append_assoc] using this

/-- C1 (amended): after ledger construction and after every `add_block` call
— that is, at every observable point of a run in which the retroactive sweep
has not been applied — every block of the chain satisfies `BlockPow` at the
integer difficulty in force when it was mined (the construction difficulty
for the genesis block, and the floored ledger difficulty at the moment of the
corresponding `add_block` call for the others).  The retroactive sweep breaks
the recomputation half of the invariant for blocks from which a stale
KeyRevocation transaction is removed, as `claim1_counterexample` shows. -/
theorem claim1_pow_invariant (i mx mn : Nat) (tgt : Rat) (itv : Nat)
    (ms : List Miner) (ts fuel : Nat) (s0 s : GlobalLedger)
    (evs : List BlockEvent) (ds : List Nat)
    (h0 : GlobalLedger.new i mx mn tgt itv ms ts fuel = some s0)
    (hrun : runLedgerD s0 evs = some (s, ds)) :
    List.Forall₂ BlockPow s.chain (i :: ds) := by
  obtain ⟨g, p1, p2, rfl⟩ := new_spec i mx mn tgt itv ms ts fuel s0 h0
  have hbase : List.Forall₂ BlockPow [g] [i] :=
    List.Forall₂.cons ⟨p1, p2⟩ List.Forall₂.nil
  have := runLedgerD_pow evs _ s ds hrun [i] hbase
  simpa using this

set_option maxRecDepth 8000 in
/-- C1 counterexample: a reachable two-block ledger whose second block carries
a KeyRevocation of ("alice", "bob"); after the retroactive sweep removes that
transaction, recomputing the second block's hash from its stored fields no
longer yields the stored hash field, refuting the claim at the observable
point after the sweep. -/
theorem claim1_counterexample :
    (runLedger c1s0 c1evs).isSome = true ∧
    c1swept.chain.all (fun b => b.hash == b.compute_hash) = false :=
  ⟨by decide, by decide⟩

set_option maxRecDepth 8000 in
/-- C1 witness: the amended invariant evaluated on a concrete two-block run. -/
theorem claim1_witness :
    GlobalLedger.new 0 4 1 (mkRat 5 1) 100 [wMiner] 31 1 = some w1s0 ∧
    runLedgerD w1s0 w1evs = some (w1run.1, w1run.2) ∧
    List.Forall₂ BlockPow w1run.1.chain (0 :: w1run.2) :=
  ⟨by decide, by decide,
    claim1_pow_invariant 0 4 1 (mkRat 5 1) 100 [wMiner] 31 1 w1s0 w1run.1 w1evs
      w1run.2 (by decide) (by decide)⟩

/-- C2 (amended): every `add_block` call updates the difficulty exactly as
the amended claim describes: retargeting runs exactly when the post-append
chain length is a multiple of `adjustment_interval`, leaves difficulty
unchanged when fewer than 2 recent mining durations exist, and otherwise
applies the EMA-banded scaling with clamping. -/
theorem claim2_retarget (s : GlobalLedger) (txs : List Transaction) (i : Nat)
    (dur : Rat) (ts fuel : Nat) (s' : GlobalLedger) (nm : String)
    (h : s.add_block txs i dur ts fuel = some (s', nm)) :
    s'.difficulty = claimedDifficultyAfter s dur := by
  obtain ⟨-, b, -, -, -, -, -, hs⟩ := add_block_spec s txs i dur ts fuel s' nm h
  rw [hs, claimedDifficultyAfter]
  by_cases hlen : (s.chain.length + 1) % s.adjustment_interval = 0
  · have hlen' : (s.chain ++ [b]).length % s.adjustment_interval = 0 := by
      simpa [List.length_append] using hlen
    rw [if_pos hlen', if_pos hlen]
    unfold GlobalLedger.adjust_difficulty
    dsimp only [Option.getD]
    repeat' split
    all_goals rfl
  · have hlen' : ¬(s.chain ++ [b]).length % s.adjustment_interval = 0 := by
      simpa [List.length_append] using hlen
    rw [if_neg hlen', if_neg hlen]

set_option maxRecDepth 8000 in
/-- C2 counterexample: on a reachable ledger with adjustment interval 2, the
first `add_block` (duration 10, above the slow threshold 7.5) triggers
retargeting, but only one mining duration is recorded, so the code leaves the
difficulty at 0 while the claim as stated requires scaling and clamping to
`min_difficulty = 1`. -/
theorem claim2_counterexample :
    GlobalLedger.new 0 4 1 (mkRat 5 1) 2 [wMiner] 41 1 = some c2s0 ∧
    c2s0.add_block [] 0 (mkRat 10 1) 42 1 = some (c2res.1, c2res.2) ∧
    c2res.1.difficulty = 0 ∧
    claimedDifficultyStrict c2s0 (mkRat 10 1) = 1 :=
  ⟨by decide, by decide, by decide, by decide⟩

set_option maxRecDepth 8000 in
/-- C2 witness: the amended retargeting characterization evaluated on a
concrete `add_block` call. -/
theorem claim2_witness :
    w2s0.add_block [] 0 (mkRat 1 1) 52 1 = some (w2res.1, w2res.2) ∧
    w2res.1.difficulty = claimedDifficultyAfter w2s0 (mkRat 1 1) :=
  ⟨by decide,
    claim2_retarget w2s0 [] 0 (mkRat 1 1) 52 1 w2res.1 w2res.2 (by decide)⟩

theorem banded_core (s : GlobalLedger) (e : Rat) (hepos : 0 < e)
    (hlo : (s.min_difficulty : Rat) ≤ s.difficulty)
    (hhi : s.difficulty ≤ (s.max_difficulty : Rat)) :
    (s.min_difficulty : Rat) ≤
      (if e < fmul s.target_block_time (mkRat 1 2) then
        { s with
          ema_block_time := some e
          difficulty :=
            if fmul s.difficulty (fdiv s.target_block_time e) > (s.max_difficulty : Rat) then
              (s.max_difficulty : Rat)
            else fmul s.difficulty (fdiv s.target_block_time e) }
      else if e > fmul s.target_block_time (mkRat 3 2) then
        { s with
          ema_block_time := some e
          difficulty :=
            if fmul s.difficulty (fdiv s.target_block_time e) < (s.min_difficulty : Rat) then
              (s.min_difficulty : Rat)
            else fmul s.difficulty (fdiv s.target_block_time e) }
      else s).difficulty ∧
    (if e < fmul s.target_block_time (mkRat 1 2) then
        { s with
          ema_block_time := some e
          difficulty :=
            if fmul s.difficulty (fdiv s.target_block_time e) > (s.max_difficulty : Rat) then
              (s.max_difficulty : Rat)
            else fmul s.difficulty (fdiv s.target_block_time e) }
      else if e > fmul s.target_block_time (mkRat 3 2) then
        { s with
          ema_block_time := some e
          difficulty :=
            if fmul s.difficulty (fdiv s.target_block_time e) < (s.min_difficulty : Rat) then
              (s.min_difficulty : Rat)
            else fmul s.difficulty (fdiv s.target_block_time e) }
      else s).difficulty ≤ (s.max_difficulty : Rat) := by
  have hminmax : (s.min_difficulty : Rat) ≤ (s.max_difficulty : Rat) := hlo.trans hhi
  have hd0 : (0 : Rat) ≤ s.difficulty := le_trans (Nat.cast_nonneg _) hlo
  rw [fmul_eq, fmul_eq, fmul_eq, fdiv_eq]
  split
  · rename_i hfast
    have hfac : (1 : Rat) ≤ s.target_block_time / e := by
      rw [le_div_iff₀ hepos]
      rw [show (mkRat 1 2 : Rat) = 1 / 2 by rw [Rat.mkRat_eq_divInt, Rat.divInt_eq_div]; norm_num] at hfast
      nlinarith
    have hdle : s.difficulty ≤ s.difficulty * (s.target_block_time / e) :=
      le_mul_of_one_le_right hd0 hfac
    dsimp only
    split
    · exact ⟨hminmax, le_refl _⟩
    · rename_i hnot
      exact ⟨hlo.trans hdle, le_of_not_lt hnot⟩
  · split
    · rename_i hslow
      have hdup : s.difficulty * (s.target_block_time / e) ≤ (s.max_difficulty : Rat) := by
        rcases le_or_lt s.target_block_time 0 with htle | htpos
        · have hfle : s.target_block_time / e ≤ 0 :=
            div_nonpos_iff.mpr (Or.inr ⟨htle, le_of_lt hepos⟩)
          calc s.difficulty * (s.target_block_time / e) ≤ 0 :=
                mul_nonpos_iff.mpr (Or.inl ⟨hd0, hfle⟩)
            _ ≤ (s.max_difficulty : Rat) := Nat.cast_nonneg _
        · have hfle : s.target_block_time / e ≤ 1 := by
            rw [div_le_one hepos]
            rw [show (mkRat 3 2 : Rat) = 3 / 2 by rw [Rat.mkRat_eq_divInt, Rat.divInt_eq_div]; norm_num] at hslow
            nlinarith
          calc s.difficulty * (s.target_block_time / e) ≤ s.difficulty * 1 :=
                mul_le_mul_of_nonneg_left hfle hd0
            _ = s.difficulty := mul_one _
            _ ≤ (s.max_difficulty : Rat) := hhi
      dsimp only
      split
      · exact ⟨le_refl _, hminmax⟩
      · rename_i hnot
        exact ⟨le_of_not_lt hnot, hdup⟩
    · exact ⟨hlo, hhi⟩

theorem adjust_difficulty_bounds (s : GlobalLedger) (e : Rat)
    (hema : s.ema_block_time = some e) (hepos : 0 < e)
    (hlo : (s.min_difficulty : Rat) ≤ s.difficulty)
    (hhi : s.difficulty ≤ (s.max_difficulty : Rat)) :
    (s.min_difficulty : Rat) ≤ (s.adjust_difficulty).difficulty ∧
    (s.adjust_difficulty).difficulty ≤ (s.max_difficulty : Rat) := by
  unfold GlobalLedger.adjust_difficulty
  dsimp only
  rw [hema]
  dsimp only [Option.getD]
  split
  all_goals split
  · exact ⟨hlo, hhi⟩
  · exact banded_core s e hepos hlo hhi
  · exact ⟨hlo, hhi⟩
  · exact banded_core s e hepos hlo hhi

theorem newEma_pos (s : GlobalLedger) (dur : Rat) (hdur : 0 < dur)
    (hema : ∀ e, s.ema_block_time = some e → 0 < e) : 0 < newEma s dur := by
  unfold newEma
  cases he : s.ema_block_time with
  | none => exact hdur
  | some e0 =>
    have h0 : 0 < e0 := hema e0 he
    dsimp only
    rw [fadd_eq, fmul_eq, fmul_eq]
    have h3 : (mkRat 3 10 : Rat) = 3 / 10 := by
      rw [Rat.mkRat_eq_divInt, Rat.divInt_eq_div]; norm_num
    have h7 : (mkRat 7 10 : Rat) = 7 / 10 := by
      rw [Rat.mkRat_eq_divInt, Rat.divInt_eq_div]; norm_num
    rw [h3, h7]
    nlinarith

theorem add_block_inv (mn mx : Nat) (s : GlobalLedger) (txs : List Transaction)
    (i : Nat) (dur : Rat) (ts fuel : Nat) (s' : GlobalLedger) (nm : String)
    (h : s.add_block txs i dur ts fuel = some (s', nm)) (hdur : 0 < dur)
    (hinv : LedgerInv mn mx s) : LedgerInv mn mx s' := by
  obtain ⟨hmn, hmx, hlo, hhi, hema⟩ := hinv
  obtain ⟨-, b, -, -, -, -, -, hs⟩ := add_block_spec s txs i dur ts fuel s' nm h
  have hpos : 0 < newEma s dur := newEma_pos s dur hdur hema
  set s1 : GlobalLedger :=
    { s with
      mining_durations := s.mining_durations ++ [dur]
      chain := s.chain ++ [b]
      ema_block_time := some (newEma s dur) } with hs1
  have hinv1 : LedgerInv mn mx s1 := by
    refine ⟨hmn, hmx, hlo, hhi, ?_⟩
    intro e he
    rw [hs1] at he
    simp only [Option.some.injEq] at he
    rw [← he]
    exact hpos
  rw [hs]
  split
  · obtain ⟨hmn1, hmx1, hlo1, hhi1, hema1⟩ := hinv1
    obtain ⟨hq1, hq2⟩ := adjust_difficulty_bounds s1 (newEma s dur) rfl hpos
      (by rw [hmn1]; exact hlo1) (by rw [hmx1]; exact hhi1)
    obtain ⟨q, hq⟩ := adjust_shape s1
    refine ⟨by rw [hq]; exact hmn1, by rw [hq]; exact hmx1, ?_, ?_, ?_⟩
    · rw [← hmn1]; exact hq1
    · rw [← hmx1]; exact hq2
    · intro e he
      rw [hq] at he
      exact hema1 e he
  · exact hinv1

theorem runLedger_inv (mn mx : Nat) (evs : List BlockEvent) :
    ∀ (s s' : GlobalLedger), runLedger s evs = some s' →
      (∀ e ∈ evs, 0 < e.duration) → LedgerInv mn mx s → LedgerInv mn mx s' := by
  induction evs with
  | nil =>
    intro s s' h _ hinv
    rw [runLedger] at h
    cases h
    exact hinv
  | cons e es ih =>
    intro s s' h hdur hinv
    rw [runLedger] at h
    cases hab : s.add_block e.txs e.minerIdx e.duration e.timestamp e.fuel with
    | none => rw [hab] at h; simp at h
    | some p =>
      rw [hab] at h
      obtain ⟨s1, nm⟩ := p
      have h1 : LedgerInv mn mx s1 :=
        add_block_inv mn mx s e.txs e.minerIdx e.duration e.timestamp e.fuel s1 nm hab
          (hdur e (List.mem_cons_self e es)) hinv
      exact ih s1 s' h (fun x hx => hdur x (List.mem_cons_of_mem e hx)) h1

/-- C4: provided the ledger is constructed with
`min_difficulty ≤ initial_difficulty ≤ max_difficulty`, and every measured
mining duration is positive, the ledger's difficulty lies within
`[min_difficulty, max_difficulty]` after every `add_block` call (and hence
after every retargeting). -/
theorem claim4_difficulty_bounds (i mx mn : Nat) (tgt : Rat) (itv : Nat)
    (ms : List Miner) (ts fuel : Nat) (s0 s : GlobalLedger) (evs : List BlockEvent)
    (h0 : GlobalLedger.new i mx mn tgt itv ms ts fuel = some s0)
    (hmn : mn ≤ i) (hmx : i ≤ mx)
    (hdur : ∀ e ∈ evs, 0 < e.duration)
    (hrun : runLedger s0 evs = some s) :
    (mn : Rat) ≤ s.difficulty ∧ s.difficulty ≤ (mx : Rat) := by
  obtain ⟨g, -, -, rfl⟩ := new_spec i mx mn tgt itv ms ts fuel s0 h0
  have hbase : LedgerInv mn mx
      { chain := [g], difficulty := (i : Rat), max_difficulty := mx,
        min_difficulty := mn, target_block_time := tgt,
        adjustment_interval := itv, miners := ms, mining_durations := [],
        ema_block_time := none } := by
    refine ⟨rfl, rfl, ?_, ?_, ?_⟩
    · exact_mod_cast Nat.cast_le.mpr hmn
    · exact_mod_cast Nat.cast_le.mpr hmx
    · intro e he
      simp at he
  obtain ⟨-, -, hq1, hq2, -⟩ := runLedger_inv mn mx evs _ s hrun hdur hbase
  exact ⟨hq1, hq2⟩

set_option maxRecDepth 8000 in
/-- C4 witness: the difficulty-bounds invariant evaluated on a concrete run
satisfying the construction and positive-duration hypotheses. -/
theorem claim4_witness :
    GlobalLedger.new 0 4 0 (mkRat 5 1) 100 [wMiner] 61 1 = some w4s0 ∧
    (0 : Nat) ≤ 0 ∧ (0 : Nat) ≤ 4 ∧
    (∀ e ∈ [w4ev], 0 < e.duration) ∧
    runLedger w4s0 [w4ev] = some w4s ∧
    (((0 : Nat) : Rat) ≤ w4s.difficulty ∧ w4s.difficulty ≤ ((4 : Nat) : Rat)) := by
  refine ⟨by decide, by decide, by decide, ?_, by decide, ?_⟩
  · intro e he
    simp only [List.mem_singleton] at he
    subst he
    decide
  · exact claim4_difficulty_bounds 0 4 0 (mkRat 5 1) 100 [wMiner] 61 1 w4s0 w4s
      [w4ev] (by decide) (by decide) (by decide)
      (by intro e he; simp only [List.mem_singleton] at he; subst he; decide)
      (by decide)

theorem ksLookup_remove_self (ks : KeyStore) (p : String × String) :
    ksLookup (ksRemove ks p) p = none := by
  induction ks with
  | nil => rfl
  | cons e t ih =>
    show ksLookup (List.filter _ (e :: t)) p = none
    rw [List.filter_cons]
    by_cases h : e.1 = p
    · simpa [h] using ih
    · simpa [ksLookup, h] using ih

theorem ksLookup_remove_other (ks : KeyStore) (q p : String × String)
    (hne : p ≠ q) : ksLookup (ksRemove ks q) p = ksLookup ks p := by
  induction ks with
  | nil => rfl
  | cons e t ih =>
    show ksLookup (List.filter _ (e :: t)) p = _
    rw [List.filter_cons]
    have hqp : ¬q = p := fun hc => hne hc.symm
    by_cases h : e.1 = q
    · simpa [ksLookup, h, hqp] using ih
    · by_cases hp : e.1 = p
      · simp [ksLookup, h, hp, hne]
      · simpa [ksLookup, h, hp, hne] using ih

/-- C6: `revoke_key` by revoker R against target T removes exactly the Key
Store entry keyed (T, R) — T's ability to decrypt R's content — and leaves
every other entry, including (R, T), unchanged. -/
theorem claim6_revoke_key (s : UserShard) (ledger : GlobalLedger)
    (target_id : String) (ks : KeyStore) (ts gid : String) (mi : Nat)
    (dur : Rat) (bt fuel : Nat) :
    ksLookup (s.revoke_key ledger target_id ks ts gid mi dur bt fuel).1
        (target_id, s.user_id) = none ∧
    ∀ p : String × String, p ≠ (target_id, s.user_id) →
      ksLookup (s.revoke_key ledger target_id ks ts gid mi dur bt fuel).1 p =
        ksLookup ks p := by
  constructor
  · exact ksLookup_remove_self ks (target_id, s.user_id)
  · intro p hp
    exact ksLookup_remove_other ks (target_id, s.user_id) p hp

/-- C6 witness: Alice revoking Bob removes exactly ("bob", "alice") and keeps
("alice", "bob"). -/
theorem claim6_witness :
    ksLookup (w6shard.revoke_key junkLedger "bob" w6ks "t" "g" 0 (mkRat 1 1) 0 1).1
        ("bob", "alice") = none ∧
    (("alice", "bob") : String × String) ≠ ("bob", "alice") ∧
    ksLookup (w6shard.revoke_key junkLedger "bob" w6ks "t" "g" 0 (mkRat 1 1) 0 1).1
        ("alice", "bob") = ksLookup w6ks ("alice", "bob") :=
  ⟨(claim6_revoke_key w6shard junkLedger "bob" w6ks "t" "g" 0 (mkRat 1 1) 0 1).1,
   by decide,
   (claim6_revoke_key w6shard junkLedger "bob" w6ks "t" "g" 0 (mkRat 1 1) 0 1).2
     ("alice", "bob") (by decide)⟩

/-- C8: `Profile::decrypt` returns no result exactly when the profile is
marked deleted, or its encrypted payload is shorter than the 12-byte nonce,
or AEAD authentication / deserialization fails; and once `delete_profile` has
set the deletion flag, every subsequent decrypt call on that profile, with
any key, returns no result. -/
theorem claim8_decrypt_contract :
    (∀ (p : Profile) (key : List Nat),
      p.decrypt key = none ↔
        (p.is_deleted = true ∨ p.encrypted_data.length < 12 ∨
          (cipherDecrypt key (p.encrypted_data.take 12)
            (p.encrypted_data.drop 12)).bind decodeRaw = none)) ∧
    (∀ (s : UserShard) (ledger : GlobalLedger) (db : List Profile)
        (ts gid : String) (mi : Nat) (dur : Rat) (bt fuel : Nat) (key : List Nat),
      ((s.delete_profile ledger db ts gid mi dur bt fuel).1).profile.decrypt key =
        none) := by
  constructor
  · intro p key
    unfold Profile.decrypt
    by_cases hdel : p.is_deleted
    · simp [hdel]
    · by_cases hlen : p.encrypted_data.length < 12
      · simp [hdel, hlen]
      · cases hc : cipherDecrypt key (p.encrypted_data.take 12)
            (p.encrypted_data.drop 12) with
        | none => simp [hdel, hlen, hc]
        | some pt => simp [hdel, hlen, hc, Option.bind]
  · intro s ledger db ts gid mi dur bt fuel key
    rfl

theorem fetchLoop_inacc_mem (inters : List Interaction) (flt : ProfileFilter)
    (ks : KeyStore) (f : String) (recent revoked blocked : List (String × String))
    (chain : List GlobalBlock) :
    ∀ (db : List Profile) (u : String),
      u ∈ (fetchLoop inters flt ks f recent revoked blocked chain db).2 ↔
      ∃ p, p ∈ db ∧ p.user_id = u ∧ PassPre f blocked chain p ∧
        InaccWhy f ks revoked p := by
  intro db
  induction db with
  | nil => intro u; simp [fetchLoop]
  | cons p0 rest ih =>
    intro u
    rw [fetchLoop]
    simp only [List.mem_cons]
    by_cases c1 : p0.is_deleted = true ∨ p0.user_id = f
    · rw [if_pos c1]
      rw [ih u]
      constructor
      · rintro ⟨p, hp, rest'⟩
        exact ⟨p, Or.inr hp, rest'⟩
      · rintro ⟨p, hmem, huid, hpre, hwhy⟩
        cases hmem with
        | inl heq =>
          subst heq
          obtain ⟨hdel, hne, -, -⟩ := hpre
          cases c1 with
          | inl h => rw [hdel] at h; exact absurd h (by simp)
          | inr h => exact absurd h hne
        | inr hmem => exact ⟨p, hmem, huid, hpre, hwhy⟩
    · rw [if_neg c1]
      by_cases c2 : (f, p0.user_id) ∈ blocked ∨ (p0.user_id, f) ∈ blocked
      · rw [if_pos c2]
        rw [ih u]
        constructor
        · rintro ⟨p, hp, rest'⟩
          exact ⟨p, Or.inr hp, rest'⟩
        · rintro ⟨p, hmem, huid, hpre, hwhy⟩
          cases hmem with
          | inl heq =>
            subst heq
            exact absurd c2 hpre.2.2.1
          | inr hmem => exact ⟨p, hmem, huid, hpre, hwhy⟩
      · rw [if_neg c2]
        by_cases c3 : 2 ≤ reportCount chain p0.user_id
        · rw [if_pos c3]
          rw [ih u]
          constructor
          · rintro ⟨p, hp, rest'⟩
            exact ⟨p, Or.inr hp, rest'⟩
          · rintro ⟨p, hmem, huid, hpre, hwhy⟩
            cases hmem with
            | inl heq =>
              subst heq
              exact absurd hpre.2.2.2 (not_lt.mpr c3)
            | inr hmem => exact ⟨p, hmem, huid, hpre, hwhy⟩
        · rw [if_neg c3]
          have hpre0 : PassPre f blocked chain p0 := by
            refine ⟨?_, ?_, c2, not_le.mp c3⟩
            · cases hb : p0.is_deleted
              · rfl
              · exact absurd (Or.inl hb) c1
            · exact fun hc => c1 (Or.inr hc)
          cases hk : ksLookup ks (f, p0.user_id) with
          | none =>
            dsimp only
            simp only [List.mem_cons]
            rw [ih u]
            constructor
            · rintro (rfl | ⟨p, hp, rest'⟩)
              · exact ⟨p0, Or.inl rfl, rfl, hpre0, Or.inl hk⟩
              · exact ⟨p, Or.inr hp, rest'⟩
            · rintro ⟨p, hmem, huid, hpre, hwhy⟩
              cases hmem with
              | inl heq => subst heq; exact Or.inl huid.symm
              | inr hmem => exact Or.inr ⟨p, hmem, huid, hpre, hwhy⟩
          | some key =>
            dsimp only
            by_cases crev : (p0.user_id, f) ∈ revoked
            · rw [if_pos crev]
              simp only [List.mem_cons]
              rw [ih u]
              constructor
              · rintro (rfl | ⟨p, hp, rest'⟩)
                · exact ⟨p0, Or.inl rfl, rfl, hpre0, Or.inr ⟨key, hk, crev⟩⟩
                · exact ⟨p, Or.inr hp, rest'⟩
              · rintro ⟨p, hmem, huid, hpre, hwhy⟩
                cases hmem with
                | inl heq => subst heq; exact Or.inl huid.symm
                | inr hmem => exact Or.inr ⟨p, hmem, huid, hpre, hwhy⟩
            · rw [if_neg crev]
              have hstep : ∀ l : List (Profile × Nat) × List String,
                  l.2 = (fetchLoop inters flt ks f recent revoked blocked chain rest).2 →
                  (u ∈ l.2 ↔
                    ∃ p, (p = p0 ∨ p ∈ rest) ∧ p.user_id = u ∧
                      PassPre f blocked chain p ∧ InaccWhy f ks revoked p) := by
                intro l hl
                rw [hl, ih u]
                constructor
                · rintro ⟨p, hp, rest'⟩
                  exact ⟨p, Or.inr hp, rest'⟩
                · rintro ⟨p, hmem, huid, hpre, hwhy⟩
                  cases hmem with
                  | inl heq =>
                    subst heq
                    cases hwhy with
                    | inl h => rw [h] at hk; exact absurd hk (by simp)
                    | inr h =>
                      obtain ⟨-, -, hrev⟩ := h
                      exact absurd hrev crev
                  | inr hmem => exact ⟨p, hmem, huid, hpre, hwhy⟩
              cases hd : Profile.decrypt p0 key with
              | none => exact hstep _ rfl
              | some raw =>
                dsimp only
                split
                · exact hstep _ rfl
                · exact hstep _ rfl

theorem mem_insertScoreDesc (x y : Profile × Nat) :
    ∀ l : List (Profile × Nat), y ∈ insertScoreDesc x l ↔ y = x ∨ y ∈ l := by
  intro l
  induction l with
  | nil => simp [insertScoreDesc]
  | cons a t ih =>
    rw [insertScoreDesc]
    split
    · simp [List.mem_cons]
    · simp only [List.mem_cons, ih]
      tauto

theorem mem_sortScoreDesc (y : Profile × Nat) :
    ∀ l : List (Profile × Nat), y ∈ sortScoreDesc l ↔ y ∈ l := by
  intro l
  induction l with
  | nil => simp [sortScoreDesc]
  | cons a t ih =>
    show y ∈ insertScoreDesc a (sortScoreDesc t) ↔ _
    rw [mem_insertScoreDesc, ih]
    simp [List.mem_cons]

theorem fetchLoop_scored_mem (inters : List Interaction) (flt : ProfileFilter)
    (ks : KeyStore) (f : String) (recent revoked blocked : List (String × String))
    (chain : List GlobalBlock) :
    ∀ (db : List Profile) (pr : Profile × Nat),
      pr ∈ (fetchLoop inters flt ks f recent revoked blocked chain db).1 →
      pr.1 ∈ db ∧ PassPre f blocked chain pr.1 ∧
      ∃ key, ksLookup ks (f, pr.1.user_id) = some key ∧
        (pr.1.user_id, f) ∉ revoked ∧ ∃ raw, pr.1.decrypt key = some raw := by
  intro db
  induction db with
  | nil => intro pr h; simp [fetchLoop] at h
  | cons p0 rest ih =>
    intro pr h
    rw [fetchLoop] at h
    by_cases c1 : p0.is_deleted = true ∨ p0.user_id = f
    · rw [if_pos c1] at h
      obtain ⟨hm, hrest⟩ := ih pr h
      exact ⟨List.mem_cons_of_mem p0 hm, hrest⟩
    · rw [if_neg c1] at h
      by_cases c2 : (f, p0.user_id) ∈ blocked ∨ (p0.user_id, f) ∈ blocked
      · rw [if_pos c2] at h
        obtain ⟨hm, hrest⟩ := ih pr h
        exact ⟨List.mem_cons_of_mem p0 hm, hrest⟩
      · rw [if_neg c2] at h
        by_cases c3 : 2 ≤ reportCount chain p0.user_id
        · rw [if_pos c3] at h
          obtain ⟨hm, hrest⟩ := ih pr h
          exact ⟨List.mem_cons_of_mem p0 hm, hrest⟩
        · rw [if_neg c3] at h
          have hpre0 : PassPre f blocked chain p0 := by
            refine ⟨?_, ?_, c2, not_le.mp c3⟩
            · cases hb : p0.is_deleted
              · rfl
              · exact absurd (Or.inl hb) c1
            · exact fun hc => c1 (Or.inr hc)
          cases hk : ksLookup ks (f, p0.user_id) with
          | none =>
            rw [hk] at h
            dsimp only at h
            obtain ⟨hm, hrest⟩ := ih pr h
            exact ⟨List.mem_cons_of_mem p0 hm, hrest⟩
          | some key =>
            rw [hk] at h
            dsimp only at h
            by_cases crev : (p0.user_id, f) ∈ revoked
            · rw [if_pos crev] at h
              dsimp only at h
              obtain ⟨hm, hrest⟩ := ih pr h
              exact ⟨List.mem_cons_of_mem p0 hm, hrest⟩
            · rw [if_neg crev] at h
              cases hd : Profile.decrypt p0 key with
              | none =>
                rw [hd] at h
                dsimp only at h
                obtain ⟨hm, hrest⟩ := ih pr h
                exact ⟨List.mem_cons_of_mem p0 hm, hrest⟩
              | some raw =>
                rw [hd] at h
                dsimp only at h
                split at h
                · rw [List.mem_cons] at h
                  cases h with
                  | inl heq =>
                    subst heq
                    exact ⟨List.mem_cons_self p0 rest, hpre0,
                      key, hk, crev, raw, hd⟩
                  | inr hmem =>
                    obtain ⟨hm, hrest⟩ := ih pr hmem
                    exact ⟨List.mem_cons_of_mem p0 hm, hrest⟩
                · obtain ⟨hm, hrest⟩ := ih pr h
                  exact ⟨List.mem_cons_of_mem p0 hm, hrest⟩

theorem fetch_relevant_spec (s : UserShard) (flt : ProfileFilter)
    (db : List Profile) (ks : KeyStore) (f : String) (ledger : GlobalLedger) :
    (s.fetch_relevant_profiles flt db ks f ledger).2 =
      (fetchLoop s.interactions flt ks f
        (if flt.recent_matches.getD false then matchPairs ledger.get_chain else [])
        (revokedPairs ledger.get_chain) (blockedPairs ledger.get_chain)
        ledger.get_chain db).2 ∧
    (∀ q : Profile,
      q ∈ (s.fetch_relevant_profiles flt db ks f ledger).1.relevant_profiles →
      ∃ sc, (q, sc) ∈
        (fetchLoop s.interactions flt ks f
          (if flt.recent_matches.getD false then matchPairs ledger.get_chain else [])
          (revokedPairs ledger.get_chain) (blockedPairs ledger.get_chain)
          ledger.get_chain db).1) := by
  constructor
  · rfl
  · intro q hq
    unfold UserShard.fetch_relevant_profiles at hq
    dsimp only at hq
    by_cases hms : flt.min_score.isSome
    · rw [if_pos hms] at hq
      rw [List.mem_map] at hq
      obtain ⟨pr, hpr, hfst⟩ := hq
      rw [mem_sortScoreDesc] at hpr
      exact ⟨pr.2, by rwa [← hfst, Prod.mk.eta]⟩
    · rw [if_neg hms] at hq
      rw [List.mem_map] at hq
      obtain ⟨pr, hpr, hfst⟩ := hq
      exact ⟨pr.2, by rwa [← hfst, Prod.mk.eta]⟩

/-- C9: `fetch_relevant_profiles` excludes from the relevant-profiles result
every candidate linked to the fetcher by a BlockUser transaction in either
direction, and every candidate who is the receiver of at least 2 ReportUser
transactions across the whole chain: any profile appearing in the result has
no such link and fewer than 2 reports. -/
theorem claim9_filter_exclusions (s : UserShard) (flt : ProfileFilter)
    (db : List Profile) (ks : KeyStore) (f : String) (ledger : GlobalLedger)
    (q : Profile)
    (hq : q ∈ (s.fetch_relevant_profiles flt db ks f ledger).1.relevant_profiles) :
    ¬((f, q.user_id) ∈ blockedPairs ledger.get_chain ∨
      (q.user_id, f) ∈ blockedPairs ledger.get_chain) ∧
    reportCount ledger.get_chain q.user_id < 2 := by
  obtain ⟨-, hrel⟩ := fetch_relevant_spec s flt db ks f ledger
  obtain ⟨sc, hsc⟩ := hrel q hq
  obtain ⟨-, hpre, -⟩ := fetchLoop_scored_mem s.interactions flt ks f _ _ _ _ db (q, sc) hsc
  exact ⟨hpre.2.2.1, hpre.2.2.2⟩

/-- C10: every user id in the inaccessible list returned by
`fetch_relevant_profiles` belongs to a database candidate that survives the
pre-filters (not deleted, not the fetcher, no BlockUser link, fewer than 2
reports) and whose Key Store entry (fetcher, candidate) is absent or revoked
by a chain KeyRevocation (candidate, fetcher); candidates skipped for any
other reason never appear in the inaccessible list. -/
theorem claim10_inaccessible_reasons (s : UserShard) (flt : ProfileFilter)
    (db : List Profile) (ks : KeyStore) (f : String) (ledger : GlobalLedger)
    (u : String)
    (hu : u ∈ (s.fetch_relevant_profiles flt db ks f ledger).2) :
    ∃ p, p ∈ db ∧ p.user_id = u ∧
      PassPre f (blockedPairs ledger.get_chain) ledger.get_chain p ∧
      InaccWhy f ks (revokedPairs ledger.get_chain) p := by
  obtain ⟨hinacc, -⟩ := fetch_relevant_spec s flt db ks f ledger
  rw [hinacc] at hu
  exact (fetchLoop_inacc_mem s.interactions flt ks f _ _ _ _ db u).mp hu

/-- C7: a candidate surviving the pre-filters for which the Key Store holds
an entry under (fetcher, candidate) but a KeyRevocation (candidate, fetcher)
exists in the chain is added to the inaccessible list and excluded from the
relevant-profiles result. -/
theorem claim7_revoked_grant (s : UserShard) (flt : ProfileFilter)
    (db : List Profile) (ks : KeyStore) (f : String) (ledger : GlobalLedger)
    (p : Profile) (key : List Nat) (hp : p ∈ db)
    (hpre : PassPre f (blockedPairs ledger.get_chain) ledger.get_chain p)
    (hk : ksLookup ks (f, p.user_id) = some key)
    (hrev : (p.user_id, f) ∈ revokedPairs ledger.get_chain) :
    p.user_id ∈ (s.fetch_relevant_profiles flt db ks f ledger).2 ∧
    ∀ q ∈ (s.fetch_relevant_profiles flt db ks f ledger).1.relevant_profiles,
      q.user_id ≠ p.user_id := by
  obtain ⟨hinacc, hrel⟩ := fetch_relevant_spec s flt db ks f ledger
  constructor
  · rw [hinacc]
    exact (fetchLoop_inacc_mem s.interactions flt ks f _ _ _ _ db p.user_id).mpr
      ⟨p, hp, rfl, hpre, Or.inr ⟨key, hk, hrev⟩⟩
  · intro q hq hqe
    obtain ⟨sc, hsc⟩ := hrel q hq
    obtain ⟨-, -, key', -, hnrev, -⟩ :=
      fetchLoop_scored_mem s.interactions flt ks f _ _ _ _ db (q, sc) hsc
    rw [hqe] at hnrev
    exact hnrev hrev

set_option maxRecDepth 8000 in
/-- C9 witness: the exclusion guarantees evaluated on a concrete fetch where
Bob's profile survives into the relevant-profiles result. -/
theorem claim9_witness :
    wProfileBob ∈ (wShardAlice.fetch_relevant_profiles wFilterNone [wProfileBob]
      [(("alice", "bob"), wKey)] "alice" junkLedger).1.relevant_profiles ∧
    (¬((("alice", wProfileBob.user_id) : String × String) ∈
        blockedPairs junkLedger.get_chain ∨
      ((wProfileBob.user_id, "alice") : String × String) ∈
        blockedPairs junkLedger.get_chain) ∧
      reportCount junkLedger.get_chain wProfileBob.user_id < 2) :=
  ⟨by decide,
    claim9_filter_exclusions wShardAlice wFilterNone [wProfileBob]
      [(("alice", "bob"), wKey)] "alice" junkLedger wProfileBob (by decide)⟩

set_option maxRecDepth 8000 in
/-- C10 witness: the inaccessible-reasons characterization evaluated on a
concrete fetch where Bob's key is missing from the Key Store. -/
theorem claim10_witness :
    "bob" ∈ (wShardAlice.fetch_relevant_profiles wFilterNone [wProfileBob]
      [] "alice" junkLedger).2 ∧
    (∃ p, p ∈ [wProfileBob] ∧ p.user_id = "bob" ∧
      PassPre "alice" (blockedPairs junkLedger.get_chain) junkLedger.get_chain p ∧
      InaccWhy "alice" [] (revokedPairs junkLedger.get_chain) p) :=
  ⟨by decide,
    claim10_inaccessible_reasons wShardAlice wFilterNone [wProfileBob] []
      "alice" junkLedger "bob" (by decide)⟩

set_option maxRecDepth 8000 in
/-- C7 witness: a candidate with a present key but a reverse KeyRevocation in
the chain lands in the inaccessible list and not in the result. -/
theorem claim7_witness :
    wProfileBob ∈ [wProfileBob] ∧
    PassPre "alice" (blockedPairs w7ledger.get_chain) w7ledger.get_chain
      wProfileBob ∧
    ksLookup [(("alice", "bob"), wKey)] ("alice", wProfileBob.user_id) =
      some wKey ∧
    ((wProfileBob.user_id, "alice") : String × String) ∈
      revokedPairs w7ledger.get_chain ∧
    (wProfileBob.user_id ∈ (wShardAlice.fetch_relevant_profiles wFilterNone
        [wProfileBob] [(("alice", "bob"), wKey)] "alice" w7ledger).2 ∧
      ∀ q ∈ (wShardAlice.fetch_relevant_profiles wFilterNone [wProfileBob]
          [(("alice", "bob"), wKey)] "alice" w7ledger).1.relevant_profiles,
        q.user_id ≠ wProfileBob.user_id) :=
  ⟨by decide, by decide, by decide, by decide,
    claim7_revoked_grant wShardAlice wFilterNone [wProfileBob]
      [(("alice", "bob"), wKey)] "alice" w7ledger wProfileBob wKey
      (by decide) (by decide) (by decide) (by decide)⟩

